import Mathlib

/-!
wrd-battery-gauge: the serialisation and notification engine.

A shallow embedding of `source/BatteryGauge.cpp` together with the
`BatteryGaugeNotPresent` backend of `wrd-battery-gauge/BatteryGaugeNotPresent.h`.

Conventions of the embedding.

* The file-scope statics (`doInit`, `voltage`, `capacity`, `sendQueue`,
  `updateList`) are the first five fields of `State`.  The two collaborators the
  functions write to, the minar scheduler and the hardware driver, are
  the two remaining fields, so that `postCallback` and a backend read are visible
  state changes.
* `int16_t` values are `Int`, `uint16_t` values are `Fin 65536`; a conversion
  from `uint16_t` to `int16_t` is `toInt16` (reduction modulo `2 ^ 16`, as on the
  ARM targets of the library).  The comparison `capacity != value` is performed
  after the integer promotions, on 32-bit `int`, hence on the mathematical values.
* A callback (`FunctionPointer1<void, int16_t>`) is known by its identity, a
  natural number.  What its code does to the façade is a `Prog`: a tree of
  public calls, each continuation receiving the value the call returned.  The
  tree is a function of the identity and of the argument of the invocation.
* `std::list` iterators are positions.  Erasing the node an iterator points at
  invalidates it, and advancing an invalidated iterator is undefined behaviour,
  reported as `Fault.erasedCurrent`.
-/

namespace BatteryGauge

/-! ## Data model -/

/-- The enumeration `type_t` of `BatteryGauge.h`. -/
inductive type_t where
  | BatteryCapacity
  | BatteryVoltage
  deriving DecidableEq

/-- The struct `transaction_t` of `BatteryGauge.h`. -/
structure transaction_t where
  type : type_t
  deriving DecidableEq

/-- Identity of a `FunctionPointer1<void, int16_t>`: two callbacks are `==`
exactly when they bind the same function (and receiver). -/
abbrev Callback := Nat

/-- A `uint16_t` value. -/
abbrev U16 := Fin 65536

/-- Conversion of an unsigned 16-bit quantity to `int16_t`. -/
def toInt16 (n : Nat) : Int :=
  if n % 65536 < 32768 then ((n % 65536 : Nat) : Int) else ((n % 65536 : Nat) : Int) - 65536

/-- Conversion of an integer to `uint16_t`. -/
def toUInt16 (i : Int) : U16 :=
  Fin.ofNat (i % 65536).toNat

/-- Conversion of an integer to `uint32_t`. -/
def toUInt32 (i : Int) : Nat :=
  (i % 4294967296).toNat

/-- A callback waiting in the minar scheduler.  `sendDoneTask value origin` is
`sendDoneTask` bound to `value`; `origin` only remembers which backend read bound
it and is never inspected by the code. -/
inductive Posted where
  | processQueueTask
  | sendDoneTask (value : U16) (origin : type_t)
  deriving DecidableEq

/-- The statics of `BatteryGauge.cpp`, the scheduler queue (`posted`) and the
reads handed to the hardware driver that have not completed yet (`reads`). -/
structure State where
  doInit : Bool
  voltage : Int
  capacity : Int
  sendQueue : List transaction_t
  updateList : List Callback
  posted : List Posted
  reads : List type_t
  deriving DecidableEq

/-- Build-time configuration: `YOTTA_CFG_HARDWARE_WEARABLE_REFERENCE_DESIGN_BATTERY_PRESENT`
and the two constants `..._BATTERY_CAPACITY`, `..._BATTERY_ESTIMATED_CURRENT`. -/
structure Config where
  batteryPresent : Bool
  batteryCapacity : Int
  estimatedCurrent : Int

/-- The statics as initialised at load time, nothing posted, nothing in the driver. -/
def cold : State :=
  { doInit := true, voltage := -1, capacity := -1, sendQueue := [], updateList := [],
    posted := [], reads := [] }

/-- What can go wrong in a run. `emptyQueue`: `front()` on an empty `std::queue`;
`erasedCurrent`: `++iter` on an erased list node; `outOfFuel`: the notification
loop did not finish within the given number of iterations; `notEnabled`: the
environment offered an event that cannot happen (nothing posted, no read
outstanding). -/
inductive Fault where
  | emptyQueue
  | erasedCurrent
  | outOfFuel
  | notEnabled
  deriving DecidableEq

/-! ## Collaborators -/

/-- The call `minar::Scheduler::postCallback`: first in, first out. -/
def postCallback (t : Posted) (s : State) : State :=
  { s with posted := s.posted ++ [t] }

/-- The method `BatteryGaugeNotPresent::getPerMille`: posts the callback bound to `-1`. -/
def BatteryGaugeNotPresent.getPerMille (s : State) : State :=
  postCallback (.sendDoneTask (toUInt16 (-1)) .BatteryCapacity) s

/-- The method `BatteryGaugeNotPresent::getMilliVolt`: posts the callback bound to `-1`. -/
def BatteryGaugeNotPresent.getMilliVolt (s : State) : State :=
  postCallback (.sendDoneTask (toUInt16 (-1)) .BatteryVoltage) s

/-- Modelled from the spec: `BatteryGaugeImplementation::getPerMille` (the header
`BatteryGaugeImplementation.h` is missing). The Present backend forwards to the
hardware driver, which calls the completion later, once. -/
def BatteryGaugeImplementation.getPerMille (s : State) : State :=
  { s with reads := s.reads ++ [.BatteryCapacity] }

/-- Modelled from the spec: `BatteryGaugeImplementation::getMilliVolt` (the header
`BatteryGaugeImplementation.h` is missing). The Present backend forwards to the
hardware driver, which calls the completion later, once. -/
def BatteryGaugeImplementation.getMilliVolt (s : State) : State :=
  { s with reads := s.reads ++ [.BatteryVoltage] }

/-- The call `gauge.getPerMille(sendDoneTask)` on the backend selected at build time. -/
def gaugeGetPerMille (cfg : Config) (s : State) : State :=
  if cfg.batteryPresent then BatteryGaugeImplementation.getPerMille s
  else BatteryGaugeNotPresent.getPerMille s

/-- The call `gauge.getMilliVolt(sendDoneTask)` on the backend selected at build time. -/
def gaugeGetMilliVolt (cfg : Config) (s : State) : State :=
  if cfg.batteryPresent then BatteryGaugeImplementation.getMilliVolt s
  else BatteryGaugeNotPresent.getMilliVolt s

/-! ## Public functions -/

/-- The function `init`. -/
def init (s : State) : State :=
  let action1 : transaction_t := { type := .BatteryVoltage }
  let action2 : transaction_t := { type := .BatteryCapacity }
  postCallback .processQueueTask
    { s with doInit := false, sendQueue := (s.sendQueue ++ [action1]) ++ [action2] }

/-- The guard `if (doInit) { init(); }` opening every public function. -/
def ensureInit (s : State) : State :=
  if s.doInit then init s else s

/-- The scan of `setPerMilleChangeCallbackTask`: the value of `notFound` after the loop. -/
def notFound (callback : Callback) : List Callback → Bool
  | [] => true
  | x :: rest => if x = callback then false else notFound callback rest

/-- The function `setPerMilleChangeCallbackTask`. -/
def setPerMilleChangeCallbackTask (callback : Callback) (s : State) : State :=
  let s1 := ensureInit s
  if notFound callback s1.updateList then
    { s1 with updateList := s1.updateList ++ [callback] }
  else s1

/-- The loop of `cancelCallbackTask`: erase the first node equal to `callback`, then `break`. -/
def eraseFirst (callback : Callback) : List Callback → List Callback
  | [] => []
  | x :: rest => if x = callback then rest else x :: eraseFirst callback rest

/-- The function `cancelCallbackTask`. -/
def cancelCallbackTask (callback : Callback) (s : State) : State :=
  let s1 := ensureInit s
  { s1 with updateList := eraseFirst callback s1.updateList }

/-- The function `getPerMille`: the returned value and the state left behind. -/
def getPerMille (s : State) : Int × State :=
  let s1 := ensureInit s
  (s1.capacity, s1)

/-- The function `getMilliVolt`: the returned value and the state left behind. -/
def getMilliVolt (s : State) : Int × State :=
  let s1 := ensureInit s
  (s1.voltage, s1)

/-- The function `getTotalCapacity`: the returned `uint32_t` and the state left behind. -/
def getTotalCapacity (cfg : Config) (s : State) : Nat × State :=
  let s1 := ensureInit s
  (if cfg.batteryPresent then toUInt32 cfg.batteryCapacity else toUInt32 (-1), s1)

/-- The function `getAverageCurrent`: the returned `uint32_t` and the state left behind. -/
def getAverageCurrent (cfg : Config) (s : State) : Nat × State :=
  let s1 := ensureInit s
  (if cfg.batteryPresent then toUInt32 cfg.estimatedCurrent else toUInt32 (-1), s1)

/-! ## Callers of the public functions -/

/-- The six public operations, as a caller names them. -/
inductive Call where
  | setPerMilleChangeCallbackTask (callback : Callback)
  | cancelCallbackTask (callback : Callback)
  | getPerMille
  | getMilliVolt
  | getTotalCapacity
  | getAverageCurrent
  deriving DecidableEq

/-- Perform one public call: the value handed back to the caller (`0` for the
two `void` functions) and the state left behind. -/
def perform (cfg : Config) : Call → State → Int × State
  | .setPerMilleChangeCallbackTask callback, s => (0, setPerMilleChangeCallbackTask callback s)
  | .cancelCallbackTask callback, s => (0, cancelCallbackTask callback s)
  | .getPerMille, s => getPerMille s
  | .getMilliVolt, s => getMilliVolt s
  | .getTotalCapacity, s => (((getTotalCapacity cfg s).1 : Nat), (getTotalCapacity cfg s).2)
  | .getAverageCurrent, s => (((getAverageCurrent cfg s).1 : Nat), (getAverageCurrent cfg s).2)

/-- The code of a subscriber, as far as the façade can tell: a finite tree of
public calls in which every step may depend on the values returned so far. -/
inductive Prog where
  | done
  | call (c : Call) (next : Int → Prog)

/-- The code bound to each callback identity, given the argument it is called with. -/
abbrev Bodies := Callback → Int → Prog

/-- Index of the first node equal to `callback`, if any. -/
def position (callback : Callback) : List Callback → Option Nat
  | [] => none
  | x :: rest => if x = callback then some 0 else (position callback rest).map (· + 1)

/-- Where a live iterator at position `i` of `l` stands after
`cancelCallbackTask callback` ran on `l`: one to the left when an earlier node was
erased, invalid (`none`) when its own node was erased, unchanged otherwise. -/
def iterAfterCancel (callback : Callback) (l : List Callback) : Option Nat → Option Nat
  | none => none
  | some i =>
    match position callback l with
    | none => some i
    | some j => if j < i then some (i - 1) else if j = i then none else some i

/-- The iterator of the notification loop after one public call made from inside
a subscriber. Only `cancelCallbackTask` erases nodes; `push_back` leaves
iterators alone. -/
def iterAfter (c : Call) (l : List Callback) (iter : Option Nat) : Option Nat :=
  match c with
  | .cancelCallbackTask callback => iterAfterCancel callback l iter
  | _ => iter

/-- Run the code of a subscriber from inside the notification loop, following
where the loop iterator ends up. -/
def runProg (cfg : Config) : Prog → State → Option Nat → State × Option Nat
  | .done, s, iter => (s, iter)
  | .call c next, s, iter =>
    runProg cfg (next (perform cfg c s).1) (perform cfg c s).2 (iterAfter c s.updateList iter)

/-! ## Private tasks -/

/-- The function `processQueueTask`. -/
def processQueueTask (cfg : Config) (s : State) : State :=
  match s.sendQueue with
  | [] => s
  | action :: _ =>
    if action.type = .BatteryCapacity then gaugeGetPerMille cfg s
    else if action.type = .BatteryVoltage then gaugeGetMilliVolt cfg s
    else s

/-- The loop `for ( ; iter != updateList.end(); ++iter) iter->call(value)` of
`sendDoneTask`, started with the iterator at position `i`. Returns the
invocations made, oldest first, and the state after the loop. -/
def notifyLoop (cfg : Config) (B : Bodies) (arg : Int) :
    Nat → Nat → State → List (Callback × Int) × Except Fault State
  | 0, i, s => if i < s.updateList.length then ([], .error .outOfFuel) else ([], .ok s)
  | fuel + 1, i, s =>
    match s.updateList[i]? with
    | none => ([], .ok s)
    | some callback =>
      match runProg cfg (B callback arg) s (some i) with
      | (_, none) => ([(callback, arg)], .error .erasedCurrent)
      | (s1, some j) =>
        ((callback, arg) :: (notifyLoop cfg B arg fuel (j + 1) s1).1,
          (notifyLoop cfg B arg fuel (j + 1) s1).2)

/-- The function `sendDoneTask`. Returns the subscriber invocations it made and
the state it leaves behind. -/
def sendDoneTask (cfg : Config) (B : Bodies) (fuel : Nat) (value : U16) (s : State) :
    List (Callback × Int) × Except Fault State :=
  match s.sendQueue with
  | [] => ([], .error .emptyQueue)
  | action :: rest =>
    let s1 : State := { s with sendQueue := rest }
    if action.type = .BatteryCapacity then
      if s1.capacity ≠ ((value.val : Nat) : Int) then
        match notifyLoop cfg B (toInt16 value.val) fuel 0 s1 with
        | (log, .ok s2) =>
          (log, .ok (postCallback .processQueueTask { s2 with capacity := toInt16 value.val }))
        | (log, .error e) => (log, .error e)
      else ([], .ok (postCallback .processQueueTask s1))
    else if action.type = .BatteryVoltage then
      ([], .ok (postCallback .processQueueTask { s1 with voltage := toInt16 value.val }))
    else ([], .ok (postCallback .processQueueTask s1))

/-! ## The system: façade, scheduler and driver -/

/-- A state of the whole system with two records kept for the statements:
every subscriber invocation made so far, and the kind and value of every
completion that ran so far. -/
structure Sys where
  st : State
  invoked : List (Callback × Int)
  completions : List (type_t × U16)
  deriving DecidableEq

/-- The system at process start. -/
def Sys.cold : Sys :=
  { st := BatteryGauge.cold, invoked := [], completions := [] }

/-- What the environment can do: the application makes a public call, the
scheduler runs the oldest posted callback, the hardware driver completes its
oldest outstanding read with a value. -/
inductive Event where
  | call (c : Call)
  | schedule
  | driverDone (value : U16)
  deriving DecidableEq

/-- Run `sendDoneTask` and keep the records. -/
def fire (cfg : Config) (B : Bodies) (fuel : Nat) (value : U16) (sys : Sys) : Except Fault Sys :=
  match sys.st.sendQueue with
  | [] => .error .emptyQueue
  | action :: _ =>
    match sendDoneTask cfg B fuel value sys.st with
    | (log, .ok s1) =>
      .ok { st := s1, invoked := sys.invoked ++ log,
            completions := sys.completions ++ [(action.type, value)] }
    | (_, .error e) => .error e

/-- One event. -/
def step (cfg : Config) (B : Bodies) (fuel : Nat) : Event → Sys → Except Fault Sys
  | .call c, sys => .ok { sys with st := (perform cfg c sys.st).2 }
  | .schedule, sys =>
    match sys.st.posted with
    | [] => .error .notEnabled
    | .processQueueTask :: rest =>
      .ok { sys with st := processQueueTask cfg { sys.st with posted := rest } }
    | .sendDoneTask value _ :: rest =>
      fire cfg B fuel value { sys with st := { sys.st with posted := rest } }
  | .driverDone value, sys =>
    match sys.st.reads with
    | [] => .error .notEnabled
    | _ :: rest => fire cfg B fuel value { sys with st := { sys.st with reads := rest } }

/-- A run: the events in order, stopping at the first fault. -/
def exec (cfg : Config) (B : Bodies) (fuel : Nat) : List Event → Sys → Except Fault Sys
  | [], sys => .ok sys
  | e :: es, sys =>
    match step cfg B fuel e sys with
    | .ok sys1 => exec cfg B fuel es sys1
    | .error f => .error f

/-- A subscriber that calls nothing. -/
def idle : Bodies := fun _ _ => .done

/-- A build with the battery present. -/
def cfgPresent : Config := { batteryPresent := true, batteryCapacity := 200, estimatedCurrent := 5 }

/-- A build with the battery absent. -/
def cfgAbsent : Config := { batteryPresent := false, batteryCapacity := 0, estimatedCurrent := 0 }

/-- The value a getter must show given the record of completions: `-1` while no
completion of the kind ran, else the value of the latest one as an `int16_t`. -/
def lastValue (kind : type_t) (record : List (type_t × U16)) : Int :=
  match record.reverse.find? (fun e => e.1 = kind) with
  | none => -1
  | some e => toInt16 e.2.val

/-- The registry a first public call leaves behind: the callback when the call
subscribes one, nothing otherwise. -/
def firstRegistry : Call → List Callback
  | .setPerMilleChangeCallbackTask callback => [callback]
  | _ => []

/-- A subscriber program that only reads: it never calls
`setPerMilleChangeCallbackTask` or `cancelCallbackTask`. -/
def Quiet : Prog → Prop
  | .done => True
  | .call c next =>
    (∀ callback, c ≠ .setPerMilleChangeCallbackTask callback ∧ c ≠ .cancelCallbackTask callback)
      ∧ ∀ r, Quiet (next r)

/-- Reads handed to the backend whose completion has not run yet: those waiting
in the hardware driver (Present) and the bound completions waiting in the
scheduler (NotPresent). -/
def inFlightReads (s : State) : Nat :=
  s.reads.length + (s.posted.filter (fun t => decide (t ≠ Posted.processQueueTask))).length

/-- Posts of `processQueueTask` that the scheduler has not run yet. -/
def pendingProcessQueue (s : State) : Nat :=
  (s.posted.filter (fun t => decide (t = Posted.processQueueTask))).length

/-- The part of the state that drives the engine: init flag, queue, scheduler
queue and driver. -/
def core (s : State) : Bool × List transaction_t × List Posted × List type_t :=
  (s.doInit, s.sendQueue, s.posted, s.reads)

/-- Where a dispatched read of the given kind waits for its completion: in the
driver (Present), or in the scheduler as `sendDoneTask` bound to `-1` (NotPresent). -/
def awaiting (cfg : Config) (kind : type_t) : List Posted × List type_t :=
  if cfg.batteryPresent then ([], [kind]) else ([.sendDoneTask (toUInt16 (-1)) kind], [])

/-- The seven stages the engine goes through: cold; initialised; Voltage read in
flight; Voltage done; Capacity read in flight; Capacity done; idle. -/
def stage (cfg : Config) : Nat → Bool × List transaction_t × List Posted × List type_t
  | 0 => (true, [], [], [])
  | 1 => (false, [{ type := .BatteryVoltage }, { type := .BatteryCapacity }],
          [.processQueueTask], [])
  | 2 => (false, [{ type := .BatteryVoltage }, { type := .BatteryCapacity }],
          (awaiting cfg .BatteryVoltage).1, (awaiting cfg .BatteryVoltage).2)
  | 3 => (false, [{ type := .BatteryCapacity }], [.processQueueTask], [])
  | 4 => (false, [{ type := .BatteryCapacity }],
          (awaiting cfg .BatteryCapacity).1, (awaiting cfg .BatteryCapacity).2)
  | 5 => (false, [], [.processQueueTask], [])
  | _ => (false, [], [], [])

/-- The kinds of the completions that have run when a stage is reached. -/
def stageKinds (n : Nat) : List type_t :=
  if n ≤ 2 then [] else if n ≤ 4 then [.BatteryVoltage] else [.BatteryVoltage, .BatteryCapacity]

/-- The reads still to be dispatched at a stage. -/
def stageReadsLeft (n : Nat) : Nat :=
  if n ≤ 1 then 2 else if n ≤ 3 then 1 else 0

/-- The system is at stage `n`. -/
def AtStage (cfg : Config) (n : Nat) (sys : Sys) : Prop :=
  n ≤ 6 ∧ core sys.st = stage cfg n ∧ sys.completions.map Prod.fst = stageKinds n

/-- The event makes `processQueueTask` hand a read to the backend: it is a
scheduler run, the oldest posted callback is `processQueueTask`, the queue is
not empty. -/
def dispatches (sys : Sys) : Event → Bool
  | .schedule =>
    match sys.st.posted, sys.st.sendQueue with
    | .processQueueTask :: _, _ :: _ => true
    | _, _ => false
  | _ => false

/-- The number of reads handed to the backend in the course of a run. -/
def readsIssued (cfg : Config) (B : Bodies) (fuel : Nat) : List Event → Sys → Nat
  | [], _ => 0
  | e :: es, sys =>
    (if dispatches sys e then 1 else 0) +
      (match step cfg B fuel e sys with
        | .ok sys1 => readsIssued cfg B fuel es sys1
        | .error _ => 0)

/-- The event runs `init`: it is a public call made while the init flag is set.
Subscriber code makes public calls too, but only inside a completion, and a
completion can run only after `init` has cleared the flag (`stage_doInit`). -/
def runsInit (sys : Sys) : Event → Bool
  | .call _ => sys.st.doInit
  | _ => false

/-- The number of times `init` ran in the course of a run. -/
def initRuns (cfg : Config) (B : Bodies) (fuel : Nat) : List Event → Sys → Nat
  | [], _ => 0
  | e :: es, sys =>
    (if runsInit sys e then 1 else 0) +
      (match step cfg B fuel e sys with
        | .ok sys1 => initRuns cfg B fuel es sys1
        | .error _ => 0)

/-- The kind of the read whose completion the event runs, as noted when the
read was dispatched; `none` when the event is not a completion. -/
def dispatchedKind (sys : Sys) : Event → Option type_t
  | .schedule =>
    match sys.st.posted with
    | .sendDoneTask _ origin :: _ => some origin
    | _ => none
  | .driverDone _ => sys.st.reads.head?
  | .call _ => none

/-- The kind of the transaction at the head of the queue, the one `sendDoneTask`
pops. -/
def poppedKind (sys : Sys) : Option type_t :=
  sys.st.sendQueue.head?.map (fun action => action.type)

/-- The subscriber program in which every call of `getPerMille` is answered
`old`, whatever the call returns. -/
def answerOld (old : Int) : Prog → Prog
  | .done => .done
  | .call c next =>
    if c = .getPerMille then .call c (fun _ => answerOld old (next old))
    else .call c (fun r => answerOld old (next r))

/-- Subscriber 7 calls `getPerMille` when invoked and subscribes callback 100 if
the call returns the value it was invoked with; every other subscriber calls
nothing. -/
def probe : Bodies := fun callback arg =>
  if callback = 7 then
    .call .getPerMille (fun r =>
      if r = arg then .call (.setPerMilleChangeCallbackTask 100) (fun _ => .done) else .done)
  else .done

/-! ## Basic facts about the public functions -/

@[simp] theorem ensureInit_updateList (s : State) : (ensureInit s).updateList = s.updateList := by
  unfold ensureInit init postCallback; split <;> rfl

@[simp] theorem ensureInit_voltage (s : State) : (ensureInit s).voltage = s.voltage := by
  unfold ensureInit init postCallback; split <;> rfl

@[simp] theorem ensureInit_capacity (s : State) : (ensureInit s).capacity = s.capacity := by
  unfold ensureInit init postCallback; split <;> rfl

@[simp] theorem ensureInit_doInit (s : State) : (ensureInit s).doInit = false := by
  unfold ensureInit init postCallback; split <;> simp_all

@[simp] theorem ensureInit_reads (s : State) : (ensureInit s).reads = s.reads := by
  unfold ensureInit init postCallback; split <;> rfl

theorem ensureInit_of_false {s : State} (h : s.doInit = false) : ensureInit s = s := by
  simp [ensureInit, h]

@[simp] theorem ensureInit_idem (s : State) : ensureInit (ensureInit s) = ensureInit s :=
  ensureInit_of_false (ensureInit_doInit s)

theorem notFound_iff (callback : Callback) (l : List Callback) :
    notFound callback l = true ↔ callback ∉ l := by
  induction l with
  | nil => simp [notFound]
  | cons x rest ih =>
    by_cases hx : x = callback
    · simp [notFound, hx]
    · simp [notFound, hx, ih, Ne.symm hx]

theorem eraseFirst_eq_erase (callback : Callback) (l : List Callback) :
    eraseFirst callback l = l.erase callback := by
  induction l with
  | nil => rfl
  | cons x rest ih =>
    by_cases hx : x = callback
    · simp [eraseFirst, hx]
    · simp [eraseFirst, hx, ih, List.erase_cons_tail]

theorem setPerMilleChangeCallbackTask_updateList (callback : Callback) (s : State) :
    (setPerMilleChangeCallbackTask callback s).updateList
      = if callback ∈ s.updateList then s.updateList else s.updateList ++ [callback] := by
  unfold setPerMilleChangeCallbackTask
  by_cases h : callback ∈ s.updateList
  · have : notFound callback s.updateList = false := by
      rw [Bool.eq_false_iff, Ne, notFound_iff]; simpa using h
    simp [this, h]
  · have : notFound callback s.updateList = true := by
      rw [notFound_iff]; exact h
    simp [this, h]

theorem setPerMilleChangeCallbackTask_of_mem (callback : Callback) (s : State)
    (hd : s.doInit = false) (hm : callback ∈ s.updateList) :
    setPerMilleChangeCallbackTask callback s = s := by
  have hnf : notFound callback s.updateList = false := by
    rw [Bool.eq_false_iff, Ne, notFound_iff]
    simpa using hm
  unfold setPerMilleChangeCallbackTask
  simp [ensureInit_of_false hd, hnf]

theorem cancelCallbackTask_updateList (callback : Callback) (s : State) :
    (cancelCallbackTask callback s).updateList = s.updateList.erase callback := by
  simp [cancelCallbackTask, eraseFirst_eq_erase]

/-- The registry after any public call. -/
theorem perform_updateList (cfg : Config) (c : Call) (s : State) :
    (perform cfg c s).2.updateList =
      match c with
      | .setPerMilleChangeCallbackTask callback =>
        if callback ∈ s.updateList then s.updateList else s.updateList ++ [callback]
      | .cancelCallbackTask callback => s.updateList.erase callback
      | _ => s.updateList := by
  cases c <;>
    simp [perform, getPerMille, getMilliVolt, getTotalCapacity, getAverageCurrent,
      setPerMilleChangeCallbackTask_updateList, cancelCallbackTask_updateList]

theorem perform_voltage (cfg : Config) (c : Call) (s : State) :
    (perform cfg c s).2.voltage = s.voltage := by
  cases c <;>
    simp [perform, getPerMille, getMilliVolt, getTotalCapacity, getAverageCurrent,
      setPerMilleChangeCallbackTask, cancelCallbackTask]
  split <;> simp

theorem perform_capacity (cfg : Config) (c : Call) (s : State) :
    (perform cfg c s).2.capacity = s.capacity := by
  cases c <;>
    simp [perform, getPerMille, getMilliVolt, getTotalCapacity, getAverageCurrent,
      setPerMilleChangeCallbackTask, cancelCallbackTask]
  split <;> simp

theorem perform_nodup (cfg : Config) (c : Call) (s : State) (h : s.updateList.Nodup) :
    (perform cfg c s).2.updateList.Nodup := by
  rw [perform_updateList]
  cases c with
  | setPerMilleChangeCallbackTask callback =>
    by_cases hm : callback ∈ s.updateList
    · simpa [hm] using h
    · simp only [hm, if_false]
      exact List.Nodup.append h (List.nodup_singleton _) (by simpa using hm)
  | cancelCallbackTask callback => exact h.erase _
  | getPerMille => exact h
  | getMilliVolt => exact h
  | getTotalCapacity => exact h
  | getAverageCurrent => exact h

/-! ## Subscriber code and the notification loop -/

/-- Whatever every public call preserves, subscriber code preserves. -/
theorem runProg_preserves (cfg : Config) (P : State → Prop)
    (hP : ∀ c s, P s → P (perform cfg c s).2) (p : Prog) :
    ∀ (s : State) (iter : Option Nat), P s → P (runProg cfg p s iter).1 := by
  induction p with
  | done => intro s iter h; exact h
  | call c next ih =>
    intro s iter h
    simp only [runProg]
    exact ih _ _ _ (hP c s h)

/-- Whatever every public call preserves, the notification loop preserves. -/
theorem notifyLoop_preserves (cfg : Config) (B : Bodies) (arg : Int) (P : State → Prop)
    (hP : ∀ c s, P s → P (perform cfg c s).2) :
    ∀ (fuel i : Nat) (s s2 : State), P s → (notifyLoop cfg B arg fuel i s).2 = .ok s2 → P s2 := by
  intro fuel
  induction fuel with
  | zero =>
    intro i s s2 h hr
    unfold notifyLoop at hr
    split at hr
    · simp at hr
    · simp only [Except.ok.injEq] at hr; exact hr ▸ h
  | succ fuel ih =>
    intro i s s2 h hr
    unfold notifyLoop at hr
    split at hr
    · simp only [Except.ok.injEq] at hr; exact hr ▸ h
    · rename_i callback _
      split at hr
      · simp at hr
      · rename_i s1 j hrun
        have h1 : P (runProg cfg (B callback arg) s (some i)).1 :=
          runProg_preserves cfg P hP _ _ _ h
        rw [hrun] at h1
        exact ih _ _ _ h1 hr

/-- Reading code leaves the registry and the loop iterator alone. -/
theorem runProg_quiet (cfg : Config) (p : Prog) :
    ∀ (s : State) (iter : Option Nat), Quiet p →
      (runProg cfg p s iter).1.updateList = s.updateList ∧ (runProg cfg p s iter).2 = iter := by
  induction p with
  | done => intro s iter _; exact ⟨rfl, rfl⟩
  | call c next ih =>
    intro s iter hq
    obtain ⟨hc, hn⟩ := hq
    simp only [runProg]
    have h := ih (perform cfg c s).1 (perform cfg c s).2 (iterAfter c s.updateList iter)
      (hn _)
    have hu : (perform cfg c s).2.updateList = s.updateList := by
      rw [perform_updateList]
      cases c with
      | setPerMilleChangeCallbackTask callback => exact absurd rfl (hc callback).1
      | cancelCallbackTask callback => exact absurd rfl (hc callback).2
      | getPerMille => rfl
      | getMilliVolt => rfl
      | getTotalCapacity => rfl
      | getAverageCurrent => rfl
    have hi : iterAfter c s.updateList iter = iter := by
      cases c with
      | cancelCallbackTask callback => exact absurd rfl (hc callback).2
      | setPerMilleChangeCallbackTask callback => rfl
      | getPerMille => rfl
      | getMilliVolt => rfl
      | getTotalCapacity => rfl
      | getAverageCurrent => rfl
    rw [h.1, h.2, hu, hi]
    exact ⟨rfl, rfl⟩

/-- With reading subscribers and enough fuel the loop finishes, having invoked
the nodes from position `i` on, in order, once each. -/
theorem notifyLoop_quiet (cfg : Config) (B : Bodies) (arg : Int) :
    ∀ (fuel i : Nat) (s : State), (∀ c ∈ s.updateList, Quiet (B c arg)) →
      s.updateList.length ≤ fuel + i →
      (notifyLoop cfg B arg fuel i s).1 = (s.updateList.drop i).map (fun c => (c, arg)) ∧
      ∃ s2, (notifyLoop cfg B arg fuel i s).2 = .ok s2 ∧ s2.updateList = s.updateList := by
  intro fuel
  induction fuel with
  | zero =>
    intro i s _ h
    have hi : s.updateList.length ≤ i := by omega
    unfold notifyLoop
    rw [if_neg (by omega)]
    exact ⟨by simp [List.drop_eq_nil_of_le hi], s, rfl, rfl⟩
  | succ fuel ih =>
    intro i s hB h
    unfold notifyLoop
    by_cases hi : i < s.updateList.length
    · have hget : s.updateList[i]? = some s.updateList[i] := List.getElem?_eq_getElem hi
      have hq := runProg_quiet cfg (B s.updateList[i] arg) s (some i)
        (hB _ (List.getElem_mem hi))
      rw [hget]
      simp only
      have hsplit : runProg cfg (B s.updateList[i] arg) s (some i)
          = ((runProg cfg (B s.updateList[i] arg) s (some i)).1, some i) :=
        Prod.ext rfl hq.2
      rw [hsplit]
      simp only
      have h2 := ih (i + 1) (runProg cfg (B s.updateList[i] arg) s (some i)).1
        (by rw [hq.1]; exact hB) (by rw [hq.1]; omega)
      rw [hq.1] at h2
      refine ⟨?_, ?_⟩
      · rw [h2.1, List.drop_eq_getElem_cons hi]; rfl
      · exact h2.2
    · have hnone : s.updateList[i]? = none := List.getElem?_eq_none (by omega)
      rw [hnone]
      exact ⟨by simp [List.drop_eq_nil_of_le (Nat.le_of_not_lt hi)], s, rfl, rfl⟩

/-! ## `sendDoneTask` case by case -/

theorem sendDoneTask_voltage (cfg : Config) (B : Bodies) (fuel : Nat) (value : U16) (s : State)
    (rest : List transaction_t) (hq : s.sendQueue = { type := .BatteryVoltage } :: rest) :
    sendDoneTask cfg B fuel value s
      = ([], .ok (postCallback .processQueueTask
          { s with sendQueue := rest, voltage := toInt16 value.val })) := by
  simp [sendDoneTask, hq]

theorem sendDoneTask_same (cfg : Config) (B : Bodies) (fuel : Nat) (value : U16) (s : State)
    (rest : List transaction_t) (hq : s.sendQueue = { type := .BatteryCapacity } :: rest)
    (hc : s.capacity = ((value.val : Nat) : Int)) :
    sendDoneTask cfg B fuel value s
      = ([], .ok (postCallback .processQueueTask { s with sendQueue := rest })) := by
  simp [sendDoneTask, hq, hc]

theorem sendDoneTask_changed (cfg : Config) (B : Bodies) (fuel : Nat) (value : U16) (s : State)
    (rest : List transaction_t) (hq : s.sendQueue = { type := .BatteryCapacity } :: rest)
    (hc : s.capacity ≠ ((value.val : Nat) : Int)) :
    (sendDoneTask cfg B fuel value s).1
        = (notifyLoop cfg B (toInt16 value.val) fuel 0 { s with sendQueue := rest }).1 ∧
    (sendDoneTask cfg B fuel value s).2
        = (notifyLoop cfg B (toInt16 value.val) fuel 0 { s with sendQueue := rest }).2.map
            (fun s2 => postCallback .processQueueTask { s2 with capacity := toInt16 value.val }) := by
  simp only [sendDoneTask, hq, if_true, ne_eq, hc, not_false_eq_true]
  split <;> rename_i heq <;> simp [heq, Except.map]

theorem notifyLoop_head (cfg : Config) (B : Bodies) (arg : Int) (fuel : Nat) (s : State)
    (first : Callback) (others : List Callback) (hl : s.updateList = first :: others) :
    (notifyLoop cfg B arg (fuel + 1) 0 s).1.head? = some (first, arg) := by
  unfold notifyLoop
  simp only [hl, List.getElem?_cons_zero]
  split <;> rfl

/-! ## Effects of one completion -/

theorem toInt16_range (n : Nat) : -32768 ≤ toInt16 n ∧ toInt16 n ≤ 32767 := by
  unfold toInt16
  split <;> omega

theorem toInt16_of_lt (n : Nat) (h : n < 32768) : toInt16 n = (n : Int) := by
  unfold toInt16
  rw [Nat.mod_eq_of_lt (by omega)]
  simp [h]

/-- What a completion that finished did to the cache and the registry. -/
theorem sendDoneTask_ok (cfg : Config) (B : Bodies) (fuel : Nat) (value : U16) (s s2 : State)
    (h : (sendDoneTask cfg B fuel value s).2 = .ok s2) :
    ∃ action rest, s.sendQueue = action :: rest ∧
      (s.updateList.Nodup → s2.updateList.Nodup) ∧
      s2.voltage = (if action.type = .BatteryVoltage then toInt16 value.val else s.voltage) ∧
      s2.capacity = (if action.type = .BatteryCapacity ∧ s.capacity ≠ ((value.val : Nat) : Int)
        then toInt16 value.val else s.capacity) := by
  cases hq : s.sendQueue with
  | nil => simp [sendDoneTask, hq] at h
  | cons action rest =>
    refine ⟨action, rest, rfl, ?_⟩
    obtain ⟨ty⟩ := action
    cases ty with
    | BatteryVoltage =>
      rw [sendDoneTask_voltage cfg B fuel value s rest hq] at h
      simp only [Except.ok.injEq] at h
      subst h
      simp [postCallback]
    | BatteryCapacity =>
      by_cases hc : s.capacity = ((value.val : Nat) : Int)
      · rw [sendDoneTask_same cfg B fuel value s rest hq hc] at h
        simp only [Except.ok.injEq] at h
        subst h
        simp [postCallback, hc]
      · rw [(sendDoneTask_changed cfg B fuel value s rest hq hc).2] at h
        cases hl : (notifyLoop cfg B (toInt16 value.val) fuel 0 { s with sendQueue := rest }).2 with
        | error e => simp [hl, Except.map] at h
        | ok s3 =>
          simp only [hl, Except.map, Except.ok.injEq] at h
          subst h
          have hP := notifyLoop_preserves cfg B (toInt16 value.val)
            (fun t => (s.updateList.Nodup → t.updateList.Nodup) ∧ t.voltage = s.voltage)
            (fun c t ht => ⟨fun hn => perform_nodup cfg c t (ht.1 hn),
              by rw [perform_voltage]; exact ht.2⟩)
            fuel 0 { s with sendQueue := rest } s3 ⟨fun hn => hn, rfl⟩ hl
          simp [postCallback, hc, hP.2]
          exact hP.1

theorem processQueueTask_frame (cfg : Config) (s : State) :
    (processQueueTask cfg s).updateList = s.updateList ∧
    (processQueueTask cfg s).voltage = s.voltage ∧
    (processQueueTask cfg s).capacity = s.capacity := by
  unfold processQueueTask gaugeGetPerMille gaugeGetMilliVolt
    BatteryGaugeImplementation.getPerMille BatteryGaugeImplementation.getMilliVolt
    BatteryGaugeNotPresent.getPerMille BatteryGaugeNotPresent.getMilliVolt postCallback
  repeat' split
  all_goals exact ⟨rfl, rfl, rfl⟩

/-- What a completion event that went through did to the system. -/
theorem fire_ok (cfg : Config) (B : Bodies) (fuel : Nat) (value : U16) (sys sys2 : Sys)
    (h : fire cfg B fuel value sys = .ok sys2) :
    ∃ action rest, sys.st.sendQueue = action :: rest ∧
      (sendDoneTask cfg B fuel value sys.st).2 = .ok sys2.st ∧
      sys2.invoked = sys.invoked ++ (sendDoneTask cfg B fuel value sys.st).1 ∧
      sys2.completions = sys.completions ++ [(action.type, value)] := by
  unfold fire at h
  cases hq : sys.st.sendQueue with
  | nil => simp [hq] at h
  | cons action rest =>
    refine ⟨action, rest, rfl, ?_⟩
    rw [hq] at h
    simp only at h
    split at h
    · rename_i log s1 heq
      simp only [Except.ok.injEq] at h
      subst h
      simp [heq]
    · simp at h

/-- An invariant of every step is an invariant of every run. -/
theorem exec_invariant (cfg : Config) (B : Bodies) (fuel : Nat) (P : Sys → Prop)
    (hstep : ∀ e sys sys2, P sys → step cfg B fuel e sys = .ok sys2 → P sys2) :
    ∀ (evs : List Event) (sys sys2 : Sys), P sys → exec cfg B fuel evs sys = .ok sys2 → P sys2 := by
  intro evs
  induction evs with
  | nil =>
    intro sys sys2 h hr
    simp only [exec, Except.ok.injEq] at hr
    exact hr ▸ h
  | cons e es ih =>
    intro sys sys2 h hr
    simp only [exec] at hr
    split at hr
    · rename_i sys1 hs
      exact ih sys1 sys2 (hstep e sys sys1 h hs) hr
    · simp at hr

/-- The cache and registry part of one step: either the step is not a
completion and leaves registry uniqueness, voltage, capacity and the record
alone, or it is one completion, described by `sendDoneTask_ok`. -/
theorem step_cases (cfg : Config) (B : Bodies) (fuel : Nat) (e : Event) (sys sys2 : Sys)
    (h : step cfg B fuel e sys = .ok sys2) :
    ((sys.st.updateList.Nodup → sys2.st.updateList.Nodup) ∧ sys2.st.voltage = sys.st.voltage ∧
      sys2.st.capacity = sys.st.capacity ∧ sys2.completions = sys.completions) ∨
    (∃ (value : U16) (action : transaction_t),
      (sys.st.updateList.Nodup → sys2.st.updateList.Nodup) ∧
      sys2.st.voltage
        = (if action.type = .BatteryVoltage then toInt16 value.val else sys.st.voltage) ∧
      sys2.st.capacity
        = (if action.type = .BatteryCapacity ∧ sys.st.capacity ≠ ((value.val : Nat) : Int)
            then toInt16 value.val else sys.st.capacity) ∧
      sys2.completions = sys.completions ++ [(action.type, value)]) := by
  have hfire : ∀ (value : U16) (sys1 : Sys), fire cfg B fuel value sys1 = .ok sys2 →
      sys1.st.updateList = sys.st.updateList →
      sys1.st.voltage = sys.st.voltage → sys1.st.capacity = sys.st.capacity →
      sys1.completions = sys.completions →
      ∃ (value : U16) (action : transaction_t),
        (sys.st.updateList.Nodup → sys2.st.updateList.Nodup) ∧
        sys2.st.voltage
          = (if action.type = .BatteryVoltage then toInt16 value.val else sys.st.voltage) ∧
        sys2.st.capacity
          = (if action.type = .BatteryCapacity ∧ sys.st.capacity ≠ ((value.val : Nat) : Int)
              then toInt16 value.val else sys.st.capacity) ∧
        sys2.completions = sys.completions ++ [(action.type, value)] := by
    intro value sys1 hf hu hv hc hr
    obtain ⟨action, rest, hq, hs, _, hcomp⟩ := fire_ok cfg B fuel value sys1 sys2 hf
    obtain ⟨action2, rest2, hq2, hn, hv2, hc2⟩ := sendDoneTask_ok cfg B fuel value _ _ hs
    rw [hq] at hq2
    simp only [List.cons.injEq] at hq2
    obtain ⟨rfl, rfl⟩ := hq2
    exact ⟨value, action, by rw [← hu]; exact hn, by rw [hv2, hv], by rw [hc2, hc],
      by rw [hcomp, hr]⟩
  cases e with
  | call c =>
    left
    simp only [step, Except.ok.injEq] at h
    subst h
    exact ⟨perform_nodup cfg c _, perform_voltage cfg c _, perform_capacity cfg c _, rfl⟩
  | schedule =>
    simp only [step] at h
    split at h
    · simp at h
    · left
      simp only [Except.ok.injEq] at h
      subst h
      rename_i rest _
      have hf := processQueueTask_frame cfg { sys.st with posted := rest }
      exact ⟨fun hn => by rw [hf.1]; exact hn, hf.2.1, hf.2.2, rfl⟩
    · right
      exact hfire _ _ h rfl rfl rfl rfl
  | driverDone value =>
    simp only [step] at h
    split at h
    · simp at h
    · right
      exact hfire _ _ h rfl rfl rfl rfl

/-- In every state reached from the cold state the registry has no repetition. -/
theorem reachable_nodup (cfg : Config) (B : Bodies) (fuel : Nat) (evs : List Event) (sys : Sys)
    (h : exec cfg B fuel evs Sys.cold = .ok sys) : sys.st.updateList.Nodup := by
  refine exec_invariant cfg B fuel (fun y => y.st.updateList.Nodup) ?_ evs Sys.cold sys
    (by simp [Sys.cold, cold]) h
  intro e y y2 hy hs
  rcases step_cases cfg B fuel e y y2 hs with h1 | ⟨_, _, h1, _⟩
  · exact h1.1 hy
  · exact h1 hy

theorem lastValue_append (kind k : type_t) (v : U16) (record : List (type_t × U16)) :
    lastValue kind (record ++ [(k, v)])
      = if k = kind then toInt16 v.val else lastValue kind record := by
  unfold lastValue
  by_cases hk : k = kind
  · simp [hk]
  · simp [hk]

theorem lastValue_range (kind : type_t) (record : List (type_t × U16)) :
    -32768 ≤ lastValue kind record ∧ lastValue kind record ≤ 32767 := by
  unfold lastValue
  split
  · omega
  · exact toInt16_range _

/-- In every state reached from the cold state the cache shows the latest
completion of each kind. -/
theorem reachable_cache (cfg : Config) (B : Bodies) (fuel : Nat) (evs : List Event) (sys : Sys)
    (h : exec cfg B fuel evs Sys.cold = .ok sys) :
    sys.st.voltage = lastValue .BatteryVoltage sys.completions ∧
    sys.st.capacity = lastValue .BatteryCapacity sys.completions := by
  refine exec_invariant cfg B fuel
    (fun y => y.st.voltage = lastValue .BatteryVoltage y.completions ∧
      y.st.capacity = lastValue .BatteryCapacity y.completions) ?_ evs Sys.cold sys
    (by simp [Sys.cold, cold, lastValue]) h
  intro e y y2 hy hs
  rcases step_cases cfg B fuel e y y2 hs with h1 | ⟨value, action, _, hv, hc, hr⟩
  · rw [h1.2.1, h1.2.2.1, h1.2.2.2]; exact hy
  · rw [hv, hc, hr, lastValue_append, lastValue_append]
    obtain ⟨ty⟩ := action
    cases ty with
    | BatteryVoltage => simp [hy.2]
    | BatteryCapacity =>
      simp only [reduceCtorEq, if_false, true_and, if_true]
      refine ⟨hy.1, ?_⟩
      split
      · rfl
      · rename_i hne
        have heq : y.st.capacity = ((value.val : Nat) : Int) := by
          by_contra hx; exact hne hx
        have hr := lastValue_range .BatteryCapacity y.completions
        rw [← hy.2, heq] at hr
        rw [heq, toInt16_of_lt _ (by omega)]

theorem lastValue_of_absent (kind : type_t) (record : List (type_t × U16))
    (h : ∀ e ∈ record, e.1 ≠ kind) : lastValue kind record = -1 := by
  unfold lastValue
  have : record.reverse.find? (fun e => decide (e.1 = kind)) = none := by
    rw [List.find?_eq_none]
    intro e he
    simpa using h e (List.mem_reverse.mp he)
  rw [this]

theorem lastValue_of_latest (kind : type_t) (older newer : List (type_t × U16)) (v : U16)
    (h : ∀ e ∈ newer, e.1 ≠ kind) :
    lastValue kind (older ++ (kind, v) :: newer) = toInt16 v.val := by
  unfold lastValue
  have hn : newer.reverse.find? (fun e => decide (e.1 = kind)) = none := by
    rw [List.find?_eq_none]
    intro e he
    simpa using h e (List.mem_reverse.mp he)
  simp [List.find?_append, hn]

theorem perform_cold (cfg : Config) (p : Call) :
    (perform cfg p cold).2
      = { doInit := false, voltage := -1, capacity := -1,
          sendQueue := [{ type := .BatteryVoltage }, { type := .BatteryCapacity }],
          updateList := firstRegistry p,
          posted := [.processQueueTask], reads := [] } := by
  cases p <;> rfl

/-- A changed Capacity reading with reading subscribers and enough fuel: every
subscriber is invoked once, in order, and the completion finishes. -/
theorem sendDoneTask_changed_quiet (cfg : Config) (B : Bodies) (fuel : Nat) (value : U16)
    (s : State) (rest : List transaction_t)
    (hq : s.sendQueue = { type := .BatteryCapacity } :: rest)
    (hc : s.capacity ≠ ((value.val : Nat) : Int))
    (hB : ∀ c ∈ s.updateList, Quiet (B c (toInt16 value.val)))
    (hlen : s.updateList.length ≤ fuel) :
    ∃ s2, sendDoneTask cfg B fuel value s
        = (s.updateList.map (fun c => (c, toInt16 value.val)), .ok s2) ∧
      s2.voltage = s.voltage ∧ s2.capacity = toInt16 value.val ∧
      s2.updateList = s.updateList := by
  obtain ⟨hlog, s3, hs3, hu⟩ := notifyLoop_quiet cfg B (toInt16 value.val) fuel 0
    { s with sendQueue := rest } hB (by simpa using hlen)
  have hv := notifyLoop_preserves cfg B (toInt16 value.val) (fun t => t.voltage = s.voltage)
    (fun c t ht => (perform_voltage cfg c t).trans ht) fuel 0 { s with sendQueue := rest } s3
    rfl hs3
  obtain ⟨h1, h2⟩ := sendDoneTask_changed cfg B fuel value s rest hq hc
  refine ⟨postCallback .processQueueTask { s3 with capacity := toInt16 value.val }, ?_, ?_, ?_, ?_⟩
  · refine Prod.ext ?_ ?_
    · rw [h1, hlog]; simp
    · rw [h2, hs3]; rfl
  · simpa [postCallback] using hv
  · simp [postCallback]
  · simpa [postCallback] using hu

theorem exec_append (cfg : Config) (B : Bodies) (fuel : Nat) (evs1 evs2 : List Event)
    (sys sys1 : Sys) (h : exec cfg B fuel evs1 sys = .ok sys1) :
    exec cfg B fuel (evs1 ++ evs2) sys = exec cfg B fuel evs2 sys1 := by
  induction evs1 generalizing sys with
  | nil =>
    simp only [exec, Except.ok.injEq] at h
    subst h
    rfl
  | cons e es ih =>
    simp only [exec, List.cons_append] at h ⊢
    split at h
    · rename_i sys3 hs
      exact ih sys3 h
    · simp at h

theorem perform_core_of_false (cfg : Config) (c : Call) (s : State) (h : s.doInit = false) :
    core (perform cfg c s).2 = core s := by
  cases c <;>
    simp only [perform, getPerMille, getMilliVolt, getTotalCapacity, getAverageCurrent,
      setPerMilleChangeCallbackTask, cancelCallbackTask, ensureInit_of_false h, core]
  split <;> rfl

theorem perform_core_of_true (cfg : Config) (c : Call) (s : State) (h : s.doInit = true) :
    core (perform cfg c s).2
      = (false, s.sendQueue ++ [{ type := .BatteryVoltage }, { type := .BatteryCapacity }],
          s.posted ++ [.processQueueTask], s.reads) := by
  cases c <;>
    simp [perform, getPerMille, getMilliVolt, getTotalCapacity, getAverageCurrent,
      setPerMilleChangeCallbackTask, cancelCallbackTask, ensureInit, init, postCallback, h, core]
  split <;> simp

/-- The loop never reports an empty queue. -/
theorem notifyLoop_fault (cfg : Config) (B : Bodies) (arg : Int) :
    ∀ (fuel i : Nat) (s : State) (f : Fault), (notifyLoop cfg B arg fuel i s).2 = .error f →
      f = .erasedCurrent ∨ f = .outOfFuel := by
  intro fuel
  induction fuel with
  | zero =>
    intro i s f h
    unfold notifyLoop at h
    split at h
    · simp only [Except.error.injEq] at h
      exact Or.inr h.symm
    · simp at h
  | succ fuel ih =>
    intro i s f h
    unfold notifyLoop at h
    split at h
    · simp at h
    · split at h
      · simp only [Except.error.injEq] at h
        exact Or.inl h.symm
      · exact ih _ _ _ h

/-- A completion that reports an empty queue found the queue empty. -/
theorem sendDoneTask_emptyQueue (cfg : Config) (B : Bodies) (fuel : Nat) (value : U16)
    (s : State) (h : (sendDoneTask cfg B fuel value s).2 = .error .emptyQueue) :
    s.sendQueue = [] := by
  cases hq : s.sendQueue with
  | nil => rfl
  | cons action rest =>
    exfalso
    obtain ⟨ty⟩ := action
    cases ty with
    | BatteryVoltage =>
      rw [sendDoneTask_voltage cfg B fuel value s rest hq] at h
      simp at h
    | BatteryCapacity =>
      by_cases hc : s.capacity = ((value.val : Nat) : Int)
      · rw [sendDoneTask_same cfg B fuel value s rest hq hc] at h
        simp at h
      · rw [(sendDoneTask_changed cfg B fuel value s rest hq hc).2] at h
        cases hl : (notifyLoop cfg B (toInt16 value.val) fuel 0 { s with sendQueue := rest }).2 with
        | ok s3 => simp [hl, Except.map] at h
        | error e =>
          simp only [hl, Except.map, Except.error.injEq] at h
          subst h
          rcases notifyLoop_fault cfg B _ _ _ _ _ hl with h1 | h1 <;> cases h1

/-- What a completion that finished did to the engine, when the init flag is
cleared: head popped, `processQueueTask` posted once, nothing else. -/
theorem sendDoneTask_core (cfg : Config) (B : Bodies) (fuel : Nat) (value : U16) (s s2 : State)
    (action : transaction_t) (rest : List transaction_t)
    (h : (sendDoneTask cfg B fuel value s).2 = .ok s2) (hd : s.doInit = false)
    (hq : s.sendQueue = action :: rest) :
    core s2 = (false, rest, s.posted ++ [.processQueueTask], s.reads) := by
  obtain ⟨ty⟩ := action
  cases ty with
  | BatteryVoltage =>
    rw [sendDoneTask_voltage cfg B fuel value s rest hq] at h
    simp only [Except.ok.injEq] at h
    subst h
    simp [postCallback, core, hd]
  | BatteryCapacity =>
    by_cases hc : s.capacity = ((value.val : Nat) : Int)
    · rw [sendDoneTask_same cfg B fuel value s rest hq hc] at h
      simp only [Except.ok.injEq] at h
      subst h
      simp [postCallback, core, hd]
    · rw [(sendDoneTask_changed cfg B fuel value s rest hq hc).2] at h
      cases hl : (notifyLoop cfg B (toInt16 value.val) fuel 0 { s with sendQueue := rest }).2 with
      | error e => simp [hl, Except.map] at h
      | ok s3 =>
        simp only [hl, Except.map, Except.ok.injEq] at h
        subst h
        have hP := notifyLoop_preserves cfg B (toInt16 value.val)
          (fun t => core t = (false, rest, s.posted, s.reads))
          (fun c t ht => by
            have hf : t.doInit = false := by
              have := congrArg Prod.fst ht
              simpa [core] using this
            exact (perform_core_of_false cfg c t hf).trans ht)
          fuel 0 { s with sendQueue := rest } s3 (by simp [core, hd]) hl
        simp only [core, Prod.mk.injEq] at hP
        simp [postCallback, core, hP]

theorem core_eq (s : State) (d : Bool) (q : List transaction_t) (p : List Posted)
    (r : List type_t) :
    core s = (d, q, p, r) ↔ s.doInit = d ∧ s.sendQueue = q ∧ s.posted = p ∧ s.reads = r := by
  simp [core]

/-- What a completion event that went through did to the engine. -/
theorem fire_core (cfg : Config) (B : Bodies) (fuel : Nat) (value : U16) (sys sys2 : Sys)
    (action : transaction_t) (rest : List transaction_t)
    (h : fire cfg B fuel value sys = .ok sys2) (hd : sys.st.doInit = false)
    (hq : sys.st.sendQueue = action :: rest) :
    core sys2.st = (false, rest, sys.st.posted ++ [.processQueueTask], sys.st.reads) ∧
    sys2.completions = sys.completions ++ [(action.type, value)] := by
  obtain ⟨action2, rest2, hq2, hs, _, hc⟩ := fire_ok cfg B fuel value sys sys2 h
  rw [hq] at hq2
  simp only [List.cons.injEq] at hq2
  obtain ⟨rfl, rfl⟩ := hq2
  exact ⟨sendDoneTask_core cfg B fuel value _ _ _ _ hs hd hq, hc⟩

/-- Every step that goes through takes the engine from a stage to the same or
a later stage, and a step that dispatches a read uses up one of the reads left. -/
theorem step_stage (cfg : Config) (B : Bodies) (fuel : Nat) (e : Event) (n : Nat)
    (sys sys2 : Sys) (hs : AtStage cfg n sys) (h : step cfg B fuel e sys = .ok sys2) :
    ∃ m, AtStage cfg m sys2 ∧ n ≤ m ∧
      (dispatches sys e = true → stageReadsLeft m + 1 ≤ stageReadsLeft n) := by
  obtain ⟨hn, hcore, hk⟩ := hs
  have hu : toUInt16 (-1) = 65535 := by decide
  cases e with
  | call c =>
    simp only [step, Except.ok.injEq] at h
    subst h
    by_cases h0 : n = 0
    · subst h0
      have hc := (core_eq _ _ _ _ _).mp hcore
      refine ⟨1, ⟨by omega, ?_, hk⟩, by omega, by simp [dispatches]⟩
      rw [perform_core_of_true cfg c sys.st hc.1, hc.2.1, hc.2.2.1, hc.2.2.2]
      rfl
    · have hd : sys.st.doInit = false := by
        have := congrArg Prod.fst hcore
        interval_cases n <;> simp_all [core, stage]
      refine ⟨n, ⟨hn, ?_, hk⟩, le_refl n, by simp [dispatches]⟩
      rw [perform_core_of_false cfg c sys.st hd]
      exact hcore
  | schedule =>
    cases hp : cfg.batteryPresent <;> interval_cases n <;>
      simp only [stage, awaiting, hp, core_eq, hu, Bool.false_eq_true, if_false, if_true]
        at hcore <;>
      obtain ⟨hd, hq, hpo, hr⟩ := hcore <;>
      simp only [step, hpo] at h
    all_goals first
      | (exact Except.noConfusion h)
      | (simp only [Except.ok.injEq] at h
         subst h
         first
          | exact ⟨2, ⟨by omega, by
              simp [core, stage, awaiting, hp, hu, processQueueTask, hq, gaugeGetMilliVolt,
                gaugeGetPerMille, BatteryGaugeNotPresent.getMilliVolt,
                BatteryGaugeImplementation.getMilliVolt, postCallback, hd, hr], hk⟩,
              by omega, by simp [stageReadsLeft]⟩
          | exact ⟨4, ⟨by omega, by
              simp [core, stage, awaiting, hp, hu, processQueueTask, hq, gaugeGetMilliVolt,
                gaugeGetPerMille, BatteryGaugeNotPresent.getPerMille,
                BatteryGaugeImplementation.getPerMille, postCallback, hd, hr], hk⟩,
              by omega, by simp [stageReadsLeft]⟩
          | exact ⟨6, ⟨by omega, by
              simp [core, stage, processQueueTask, hq, hd, hr], hk⟩,
              by omega, by simp [dispatches, hpo, hq]⟩)
      | (obtain ⟨hc1, hc2⟩ := fire_core cfg B fuel _ _ sys2 _ _ h hd hq
         first
          | exact ⟨3, ⟨by omega, by rw [hc1]; simp [stage, hr], by
              rw [hc2]; simp [hk, stageKinds]⟩, by omega, by simp [dispatches, hpo]⟩
          | exact ⟨5, ⟨by omega, by rw [hc1]; simp [stage, hr], by
              rw [hc2]; simp [hk, stageKinds]⟩, by omega, by simp [dispatches, hpo]⟩)
  | driverDone value =>
    cases hp : cfg.batteryPresent <;> interval_cases n <;>
      simp only [stage, awaiting, hp, core_eq, hu, Bool.false_eq_true, if_false, if_true]
        at hcore <;>
      obtain ⟨hd, hq, hpo, hr⟩ := hcore <;>
      simp only [step, hr] at h
    all_goals first
      | (exact Except.noConfusion h)
      | (obtain ⟨hc1, hc2⟩ := fire_core cfg B fuel _ _ sys2 _ _ h hd hq
         first
          | exact ⟨3, ⟨by omega, by rw [hc1]; simp [stage, hpo], by
              rw [hc2]; simp [hk, stageKinds]⟩, by omega, by simp [dispatches]⟩
          | exact ⟨5, ⟨by omega, by rw [hc1]; simp [stage, hpo], by
              rw [hc2]; simp [hk, stageKinds]⟩, by omega, by simp [dispatches]⟩)

theorem atStage_cold (cfg : Config) : AtStage cfg 0 Sys.cold :=
  ⟨by omega, rfl, rfl⟩

/-- Every state reached from the cold state is at one of the seven stages. -/
theorem reachable_stage (cfg : Config) (B : Bodies) (fuel : Nat) (evs : List Event) (sys : Sys)
    (h : exec cfg B fuel evs Sys.cold = .ok sys) : ∃ n, AtStage cfg n sys := by
  refine exec_invariant cfg B fuel (fun y => ∃ n, AtStage cfg n y) ?_ evs Sys.cold sys
    ⟨0, atStage_cold cfg⟩ h
  intro e y y2 ⟨n, hn⟩ hs
  obtain ⟨m, hm, _⟩ := step_stage cfg B fuel e n y y2 hn hs
  exact ⟨m, hm⟩

/-- A run never goes back to an earlier stage. -/
theorem exec_stage (cfg : Config) (B : Bodies) (fuel : Nat) (evs : List Event) :
    ∀ (n : Nat) (sys sys2 : Sys), AtStage cfg n sys → exec cfg B fuel evs sys = .ok sys2 →
      ∃ m, AtStage cfg m sys2 ∧ n ≤ m := by
  induction evs with
  | nil =>
    intro n sys sys2 hn h
    simp only [exec, Except.ok.injEq] at h
    exact ⟨n, h ▸ hn, le_refl n⟩
  | cons e es ih =>
    intro n sys sys2 hn h
    simp only [exec] at h
    split at h
    · rename_i sys1 hs
      obtain ⟨m, hm, hle, _⟩ := step_stage cfg B fuel e n sys sys1 hn hs
      obtain ⟨k, hk, hle2⟩ := ih m sys1 sys2 hm h
      exact ⟨k, hk, by omega⟩
    · simp at h

/-- At every stage at most one thing is outstanding: a posted `processQueueTask`
or a read in flight. The queue never holds more than two transactions. -/
theorem stage_outstanding (cfg : Config) (n : Nat) (sys : Sys) (hs : AtStage cfg n sys) :
    inFlightReads sys.st + pendingProcessQueue sys.st ≤ 1 ∧ sys.st.sendQueue.length ≤ 2 := by
  obtain ⟨hn, hcore, _⟩ := hs
  have hu : toUInt16 (-1) = 65535 := by decide
  cases hp : cfg.batteryPresent <;> interval_cases n <;>
    simp only [stage, awaiting, hp, core_eq, hu, Bool.false_eq_true, if_false, if_true]
      at hcore <;>
    obtain ⟨hd, hq, hpo, hr⟩ := hcore <;>
    simp [inFlightReads, pendingProcessQueue, hq, hpo, hr]

/-- At every stage a completion that can run finds at the head of the queue a
transaction of the kind of the read it completes. -/
theorem stage_completion (cfg : Config) (n : Nat) (sys : Sys) (e : Event) (kind : type_t)
    (hs : AtStage cfg n sys) (hk : dispatchedKind sys e = some kind) :
    ∃ rest, sys.st.sendQueue = { type := kind } :: rest := by
  obtain ⟨hn, hcore, _⟩ := hs
  have hu : toUInt16 (-1) = 65535 := by decide
  cases e with
  | call c => simp [dispatchedKind] at hk
  | schedule =>
    cases hp : cfg.batteryPresent <;> interval_cases n <;>
      simp only [stage, awaiting, hp, core_eq, hu, Bool.false_eq_true, if_false, if_true]
        at hcore <;>
      obtain ⟨hd, hq, hpo, hr⟩ := hcore <;>
      simp [dispatchedKind, hpo] at hk <;>
      subst hk <;> exact ⟨_, hq⟩
  | driverDone value =>
    cases hp : cfg.batteryPresent <;> interval_cases n <;>
      simp only [stage, awaiting, hp, core_eq, hu, Bool.false_eq_true, if_false, if_true]
        at hcore <;>
      obtain ⟨hd, hq, hpo, hr⟩ := hcore <;>
      simp [dispatchedKind, hr] at hk <;>
      subst hk <;> exact ⟨_, hq⟩

theorem stage_doInit (cfg : Config) (n : Nat) (sys : Sys) (hs : AtStage cfg n sys) :
    (sys.st.doInit = true ↔ n = 0) := by
  obtain ⟨hn, hcore, _⟩ := hs
  have := congrArg Prod.fst hcore
  interval_cases n <;> simp_all [core, stage]

/-- A completion event that reports an empty queue found the queue empty. -/
theorem fire_emptyQueue (cfg : Config) (B : Bodies) (fuel : Nat) (value : U16) (sys : Sys)
    (h : fire cfg B fuel value sys = .error .emptyQueue) : sys.st.sendQueue = [] := by
  cases hq : sys.st.sendQueue with
  | nil => rfl
  | cons action rest =>
    exfalso
    unfold fire at h
    rw [hq] at h
    simp only at h
    split at h
    · simp at h
    · rename_i log e heq
      simp only [Except.error.injEq] at h
      subst h
      have h2 : (sendDoneTask cfg B fuel value sys.st).2 = .error .emptyQueue := by rw [heq]
      have := sendDoneTask_emptyQueue cfg B fuel value sys.st h2
      rw [hq] at this
      simp at this

/-- At every stage no step reports an empty queue. -/
theorem step_not_emptyQueue (cfg : Config) (B : Bodies) (fuel : Nat) (e : Event) (n : Nat)
    (sys : Sys) (hs : AtStage cfg n sys) : step cfg B fuel e sys ≠ .error .emptyQueue := by
  intro h
  cases e with
  | call c => simp [step] at h
  | schedule =>
    cases hpo : sys.st.posted with
    | nil => simp [step, hpo] at h
    | cons t rest =>
      cases t with
      | processQueueTask => simp [step, hpo] at h
      | sendDoneTask value origin =>
        simp only [step, hpo] at h
        have hq := fire_emptyQueue cfg B fuel value _ h
        obtain ⟨tl, htl⟩ := stage_completion cfg n sys .schedule origin hs
          (by simp [dispatchedKind, hpo])
        simp only at hq
        rw [htl] at hq
        simp at hq
  | driverDone value =>
    cases hr : sys.st.reads with
    | nil => simp [step, hr] at h
    | cons k rest =>
      simp only [step, hr] at h
      have hq := fire_emptyQueue cfg B fuel value _ h
      obtain ⟨tl, htl⟩ := stage_completion cfg n sys (.driverDone value) k hs
        (by simp [dispatchedKind, hr])
      simp only at hq
      rw [htl] at hq
      simp at hq

/-- From a stage on, no run reports an empty queue. -/
theorem exec_not_emptyQueue (cfg : Config) (B : Bodies) (fuel : Nat) (evs : List Event) :
    ∀ (n : Nat) (sys : Sys), AtStage cfg n sys →
      exec cfg B fuel evs sys ≠ .error .emptyQueue := by
  induction evs with
  | nil => intro n sys _ h; simp [exec] at h
  | cons e es ih =>
    intro n sys hn h
    simp only [exec] at h
    split at h
    · rename_i sys1 hs
      obtain ⟨m, hm, _⟩ := step_stage cfg B fuel e n sys sys1 hn hs
      exact ih m sys1 hm h
    · rename_i f hs
      simp only [Except.error.injEq] at h
      subst h
      exact step_not_emptyQueue cfg B fuel e n sys hn hs

theorem stageReadsLeft_mono (n m : Nat) (h : n ≤ m) : stageReadsLeft m ≤ stageReadsLeft n := by
  unfold stageReadsLeft
  split <;> split <;> (try split) <;> (try split) <;> omega

/-- From a stage on, a run dispatches no more reads than the stage has left. -/
theorem readsIssued_le (cfg : Config) (B : Bodies) (fuel : Nat) (evs : List Event) :
    ∀ (n : Nat) (sys : Sys), AtStage cfg n sys →
      readsIssued cfg B fuel evs sys ≤ stageReadsLeft n := by
  induction evs with
  | nil => intro n sys _; simp [readsIssued]
  | cons e es ih =>
    intro n sys hn
    simp only [readsIssued]
    cases hs : step cfg B fuel e sys with
    | ok sys1 =>
      obtain ⟨m, hm, hle, hd⟩ := step_stage cfg B fuel e n sys sys1 hn hs
      have h1 := ih m sys1 hm
      have h2 := stageReadsLeft_mono n m hle
      simp only
      by_cases hdis : dispatches sys e = true
      · have := hd hdis
        simp only [hdis, if_true]
        omega
      · simp only [hdis, Bool.false_eq_true, if_false]
        omega
    | error f =>
      simp only
      have hdis : dispatches sys e = false := by
        cases e with
        | call c => rfl
        | driverDone value => rfl
        | schedule =>
          cases hpo : sys.st.posted with
          | nil => simp [dispatches, hpo]
          | cons t rest =>
            cases t with
            | processQueueTask => simp [step, hpo] at hs
            | sendDoneTask value origin => simp [dispatches, hpo]
      simp [hdis]

/-- From a stage on, `init` runs once if the stage is the cold one and never
otherwise. -/
theorem initRuns_le (cfg : Config) (B : Bodies) (fuel : Nat) (evs : List Event) :
    ∀ (n : Nat) (sys : Sys), AtStage cfg n sys →
      initRuns cfg B fuel evs sys ≤ (if n = 0 then 1 else 0) := by
  induction evs with
  | nil => intro n sys _; simp [initRuns]
  | cons e es ih =>
    intro n sys hn
    simp only [initRuns]
    have hinit := stage_doInit cfg n sys hn
    cases hs : step cfg B fuel e sys with
    | ok sys1 =>
      obtain ⟨m, hm, hle, _⟩ := step_stage cfg B fuel e n sys sys1 hn hs
      have h1 := ih m sys1 hm
      simp only
      cases e with
      | call c =>
        have hm0 : m ≠ 0 := by
          intro h0
          have := (stage_doInit cfg m sys1 hm).mpr h0
          simp only [step, Except.ok.injEq] at hs
          subst hs
          cases c <;>
            simp [perform, getPerMille, getMilliVolt, getTotalCapacity, getAverageCurrent,
              setPerMilleChangeCallbackTask, cancelCallbackTask] at this
          split at this <;> simp at this
        simp only [hm0, if_false] at h1
        by_cases h0 : n = 0
        · simp only [h0, if_true]
          split <;> omega
        · have : sys.st.doInit = false := by
            cases hdi : sys.st.doInit with
            | false => rfl
            | true => exact absurd (hinit.mp hdi) h0
          simp [runsInit, this, h0, h1]
      | schedule =>
        simp only [runsInit, Bool.false_eq_true, if_false]
        split at h1 <;> split <;> omega
      | driverDone value =>
        simp only [runsInit, Bool.false_eq_true, if_false]
        split at h1 <;> split <;> omega
    | error f =>
      cases e with
      | call c => simp [step] at hs
      | schedule => simp [runsInit]
      | driverDone value => simp [runsInit]

/-- Once both initial completions have run, no step changes the cache or runs
another completion. -/
theorem settled_forever (cfg : Config) (B : Bodies) (fuel : Nat) (evs : List Event)
    (n : Nat) (sys sys2 : Sys) (hs : AtStage cfg n sys) (hn : 5 ≤ n)
    (h : exec cfg B fuel evs sys = .ok sys2) :
    sys2.st.voltage = sys.st.voltage ∧ sys2.st.capacity = sys.st.capacity ∧
    sys2.completions = sys.completions := by
  have key := exec_invariant cfg B fuel
    (fun y => (∃ m, AtStage cfg m y ∧ 5 ≤ m) ∧ y.st.voltage = sys.st.voltage ∧
      y.st.capacity = sys.st.capacity ∧ y.completions = sys.completions) ?_ evs sys sys2
    ⟨⟨n, hs, hn⟩, rfl, rfl, rfl⟩ h
  · exact key.2
  · intro e y y2 ⟨⟨m, hm, hm5⟩, hv, hc, hr⟩ hstep
    obtain ⟨k, hk, hle, _⟩ := step_stage cfg B fuel e m y y2 hm hstep
    refine ⟨⟨k, hk, by omega⟩, ?_⟩
    rcases step_cases cfg B fuel e y y2 hstep with h1 | ⟨value, action, _, _, _, h2⟩
    · exact ⟨h1.2.1.trans hv, h1.2.2.1.trans hc, h1.2.2.2.trans hr⟩
    · exfalso
      have l1 : (y.completions.map Prod.fst).length = 2 := by
        rw [hm.2.2]; unfold stageKinds; rw [if_neg (by omega), if_neg (by omega)]; rfl
      have l2 : (y2.completions.map Prod.fst).length = 2 := by
        rw [hk.2.2]; unfold stageKinds; rw [if_neg (by omega), if_neg (by omega)]; rfl
      rw [h2] at l2
      simp at l1 l2
      omega

theorem perform_getter_of_false (cfg : Config) (s : State) (h : s.doInit = false) :
    (getPerMille s).2 = s ∧ (getMilliVolt s).2 = s ∧ (getTotalCapacity cfg s).2 = s ∧
    (getAverageCurrent cfg s).2 = s := by
  simp [getPerMille, getMilliVolt, getTotalCapacity, getAverageCurrent, ensureInit_of_false h]

/-! ## Subscribers that mutate the registry -/

/-- Answering `getPerMille` with the cached capacity changes nothing in the run
of a subscriber program. -/
theorem runProg_answerOld (cfg : Config) (old : Int) (p : Prog) :
    ∀ (s : State) (iter : Option Nat), s.capacity = old →
      runProg cfg (answerOld old p) s iter = runProg cfg p s iter := by
  induction p with
  | done => intro s iter _; rfl
  | call c next ih =>
    intro s iter h
    by_cases hc : c = .getPerMille
    · subst hc
      simp only [answerOld, if_true, runProg]
      have hr : (perform cfg .getPerMille s).1 = old := by simp [perform, getPerMille, h]
      rw [hr]
      exact ih old _ _ (by rw [perform_capacity]; exact h)
    · simp only [answerOld, hc, if_false, runProg]
      exact ih _ _ _ (by rw [perform_capacity]; exact h)

/-- Answering `getPerMille` with the capacity cached at the start changes
nothing in the notification loop. -/
theorem notifyLoop_answerOld (cfg : Config) (B : Bodies) (arg old : Int) :
    ∀ (fuel i : Nat) (s : State), s.capacity = old →
      notifyLoop cfg (fun c a => answerOld old (B c a)) arg fuel i s
        = notifyLoop cfg B arg fuel i s := by
  intro fuel
  induction fuel with
  | zero => intro i s _; simp [notifyLoop]
  | succ fuel ih =>
    intro i s h
    unfold notifyLoop
    cases hget : s.updateList[i]? with
    | none => rfl
    | some callback =>
      simp only
      rw [runProg_answerOld cfg old (B callback arg) s (some i) h]
      cases hrun : runProg cfg (B callback arg) s (some i) with
      | mk s1 it =>
        cases it with
        | none => rfl
        | some j =>
          have hcap : s1.capacity = old := by
            have := runProg_preserves cfg (fun t => t.capacity = old)
              (fun c t ht => (perform_capacity cfg c t).trans ht) (B callback arg) s (some i) h
            rw [hrun] at this
            exact this
          simp only
          rw [ih (j + 1) s1 hcap]

/-- Answering every `getPerMille` made by subscriber code with the capacity
cached before the completion changes nothing in the completion. -/
theorem sendDoneTask_answerOld (cfg : Config) (B : Bodies) (fuel : Nat) (value : U16)
    (s : State) :
    sendDoneTask cfg (fun c a => answerOld s.capacity (B c a)) fuel value s
      = sendDoneTask cfg B fuel value s := by
  cases hq : s.sendQueue with
  | nil => simp [sendDoneTask, hq]
  | cons action rest =>
    obtain ⟨ty⟩ := action
    cases ty with
    | BatteryVoltage =>
      rw [sendDoneTask_voltage cfg _ fuel value s rest hq,
        sendDoneTask_voltage cfg B fuel value s rest hq]
    | BatteryCapacity =>
      by_cases hc : s.capacity = ((value.val : Nat) : Int)
      · rw [sendDoneTask_same cfg _ fuel value s rest hq hc,
          sendDoneTask_same cfg B fuel value s rest hq hc]
      · obtain ⟨a1, a2⟩ := sendDoneTask_changed cfg
          (fun c a => answerOld s.capacity (B c a)) fuel value s rest hq hc
        obtain ⟨b1, b2⟩ := sendDoneTask_changed cfg B fuel value s rest hq hc
        have hl := notifyLoop_answerOld cfg B (toInt16 value.val) s.capacity fuel 0
          { s with sendQueue := rest } rfl
        refine Prod.ext ?_ ?_
        · rw [a1, b1, hl]
        · rw [a2, b2, hl]

/-! ## Theorems -/

/-- The test `sendDoneTask` makes before notifying, as the code has it: with a
Capacity head and a non-empty registry, subscribers are invoked exactly when
the cached `int16_t` and the delivered `uint16_t` differ as integers after
promotion. A cached `-1` therefore differs from every delivered value, the
sentinel 0xFFFF included. -/
theorem sendDoneTask_notifies_iff_test (cfg : Config) (B : Bodies) (fuel : Nat) (value : U16)
    (s : State) (rest : List transaction_t) (first : Callback) (others : List Callback)
    (hq : s.sendQueue = { type := .BatteryCapacity } :: rest)
    (hl : s.updateList = first :: others) (hf : 0 < fuel) :
    ((sendDoneTask cfg B fuel value s).1 ≠ [] ↔ s.capacity ≠ ((value.val : Nat) : Int)) ∧
    (s.capacity ≠ ((value.val : Nat) : Int) →
      (sendDoneTask cfg B fuel value s).1.head? = some (first, toInt16 value.val)) ∧
    (s.capacity ≠ ((value.val : Nat) : Int) → (∀ c a, Quiet (B c a)) →
      s.updateList.length ≤ fuel →
      (sendDoneTask cfg B fuel value s).1
        = s.updateList.map (fun c => (c, toInt16 value.val))) ∧
    (s.capacity = -1 → (sendDoneTask cfg B fuel value s).1 ≠ []) := by
  obtain ⟨n, rfl⟩ : ∃ n, fuel = n + 1 := ⟨fuel - 1, by omega⟩
  have hhead : s.capacity ≠ ((value.val : Nat) : Int) →
      (sendDoneTask cfg B (n + 1) value s).1.head? = some (first, toInt16 value.val) := by
    intro hc
    rw [(sendDoneTask_changed cfg B (n + 1) value s rest hq hc).1]
    exact notifyLoop_head cfg B _ n _ first others hl
  have hiff : (sendDoneTask cfg B (n + 1) value s).1 ≠ [] ↔
      s.capacity ≠ ((value.val : Nat) : Int) := by
    constructor
    · intro hne hc
      exact hne (by rw [sendDoneTask_same cfg B (n + 1) value s rest hq hc])
    · intro hc hnil
      have := hhead hc
      rw [hnil] at this
      simp at this
  refine ⟨hiff, hhead, ?_, ?_⟩
  · intro hc hB hlen
    rw [(sendDoneTask_changed cfg B (n + 1) value s rest hq hc).1]
    have := (notifyLoop_quiet cfg B (toInt16 value.val) (n + 1) 0
      { s with sendQueue := rest } (fun c _ => hB c _) (by simpa using hlen)).1
    simpa using this
  · intro hm
    apply hiff.mpr
    rw [hm]
    have : (0 : Int) ≤ ((value.val : Nat) : Int) := Int.ofNat_nonneg _
    omega

/-- C1 at a failing input: NotPresent build, cold start, one subscriber, the
scheduler run up to the Capacity completion. The completion carries 0xFFFF,
which as an `int16_t` is the cached capacity `-1`; the cache is the same after
the completion as before, and the subscriber is invoked all the same. -/
theorem sentinel_reading_notifies_unchanged :
    ∃ sys s2,
      exec cfgAbsent idle 1
        [.call (.setPerMilleChangeCallbackTask 1), .schedule, .schedule, .schedule] Sys.cold
        = .ok sys ∧
      sys.st.sendQueue = [{ type := .BatteryCapacity }] ∧
      sys.st.posted = [.sendDoneTask 65535 .BatteryCapacity] ∧
      sys.st.capacity = -1 ∧
      toInt16 (65535 : U16).val = sys.st.capacity ∧
      sendDoneTask cfgAbsent idle 1 65535 { sys.st with posted := [] } = ([(1, -1)], .ok s2) ∧
      s2.capacity = sys.st.capacity :=
  ⟨{ st := { doInit := false, voltage := -1, capacity := -1,
             sendQueue := [{ type := .BatteryCapacity }], updateList := [1],
             posted := [.sendDoneTask 65535 .BatteryCapacity], reads := [] },
     invoked := [], completions := [(.BatteryVoltage, 65535)] },
   { doInit := false, voltage := -1, capacity := -1, sendQueue := [], updateList := [1],
     posted := [.processQueueTask], reads := [] },
   rfl, rfl, rfl, rfl, by decide, rfl, rfl⟩

/-- C3: each of the six public operations, called with the init flag set and an
empty queue, clears the flag, leaves the queue equal to `[Voltage, Capacity]`,
posts `processQueueTask` once and issues no backend read. -/
theorem first_public_call_runs_init (cfg : Config) (c : Call) (s : State)
    (hi : s.doInit = true) (hq : s.sendQueue = []) :
    (perform cfg c s).2.doInit = false ∧
    (perform cfg c s).2.sendQueue = [{ type := .BatteryVoltage }, { type := .BatteryCapacity }] ∧
    (perform cfg c s).2.posted = s.posted ++ [.processQueueTask] ∧
    (perform cfg c s).2.reads = s.reads := by
  cases c <;>
    simp [perform, getPerMille, getMilliVolt, getTotalCapacity, getAverageCurrent,
      setPerMilleChangeCallbackTask, cancelCallbackTask, ensureInit, init, postCallback, hi, hq]
  split <;> simp

/-- Witness for C3: `getMilliVolt` on the cold state. -/
theorem first_public_call_runs_init_witness :
    (perform cfgPresent .getMilliVolt cold).2.doInit = false ∧
    (perform cfgPresent .getMilliVolt cold).2.sendQueue
      = [{ type := .BatteryVoltage }, { type := .BatteryCapacity }] ∧
    (perform cfgPresent .getMilliVolt cold).2.posted = cold.posted ++ [.processQueueTask] ∧
    (perform cfgPresent .getMilliVolt cold).2.reads = cold.reads :=
  first_public_call_runs_init cfgPresent .getMilliVolt cold rfl rfl

/-- C6: `setPerMilleChangeCallbackTask callback` leaves the registry as it is
when some entry equals `callback` and otherwise appends `callback` at the tail;
calling it twice gives the same state as calling it once. -/
theorem subscribe_appends_unless_present (callback : Callback) (s : State) :
    (setPerMilleChangeCallbackTask callback s).updateList
        = (if callback ∈ s.updateList then s.updateList else s.updateList ++ [callback]) ∧
    setPerMilleChangeCallbackTask callback (setPerMilleChangeCallbackTask callback s)
        = setPerMilleChangeCallbackTask callback s := by
  refine ⟨setPerMilleChangeCallbackTask_updateList callback s, ?_⟩
  have hmem : callback ∈ (setPerMilleChangeCallbackTask callback s).updateList := by
    rw [setPerMilleChangeCallbackTask_updateList]
    split
    · assumption
    · simp
  have hd : (setPerMilleChangeCallbackTask callback s).doInit = false := by
    unfold setPerMilleChangeCallbackTask
    simp only
    split <;> simp
  exact setPerMilleChangeCallbackTask_of_mem callback _ hd hmem

/-- C8: `cancelCallbackTask callback` removes the first entry equal to
`callback` and keeps every other entry in place: a registry that holds
`callback` splits as `l1 ++ callback :: l2` with `callback` not in `l1`, and
the result is `l1 ++ l2`. When no entry equals `callback` it does nothing
beyond the lazy initialisation, and in every case it leaves the cached voltage
and capacity alone. It is a total function: there is no error to signal. -/
theorem cancel_removes_first_only (callback : Callback) (s : State) :
    (∀ l1 l2, s.updateList = l1 ++ callback :: l2 → callback ∉ l1 →
      (cancelCallbackTask callback s).updateList = l1 ++ l2) ∧
    (callback ∈ s.updateList → ∃ l1 l2, s.updateList = l1 ++ callback :: l2 ∧ callback ∉ l1 ∧
      (cancelCallbackTask callback s).updateList = l1 ++ l2) ∧
    (callback ∉ s.updateList → cancelCallbackTask callback s = ensureInit s) ∧
    (callback ∉ s.updateList → s.doInit = false → cancelCallbackTask callback s = s) ∧
    (cancelCallbackTask callback s).voltage = s.voltage ∧
    (cancelCallbackTask callback s).capacity = s.capacity := by
  have habs : callback ∉ s.updateList → cancelCallbackTask callback s = ensureInit s := by
    intro h
    have he : eraseFirst callback (ensureInit s).updateList = (ensureInit s).updateList := by
      rw [eraseFirst_eq_erase, List.erase_of_not_mem]
      simpa using h
    unfold cancelCallbackTask
    simp only [he]
  have hsplit : ∀ l1 l2, s.updateList = l1 ++ callback :: l2 → callback ∉ l1 →
      (cancelCallbackTask callback s).updateList = l1 ++ l2 := by
    intro l1 l2 hl hn
    rw [cancelCallbackTask_updateList, hl]
    rw [List.erase_append_right _ hn]
    simp
  refine ⟨hsplit, ?_, habs, ?_, ?_, ?_⟩
  · intro hm
    obtain ⟨l1, l2, hl, hn⟩ := List.eq_append_cons_of_mem hm
    exact ⟨l1, l2, hl, hn, hsplit l1 l2 hl hn⟩
  · intro h hd
    rw [habs h, ensureInit_of_false hd]
  · simp [cancelCallbackTask]
  · simp [cancelCallbackTask]

/-- Witness for C8: cancelling `2` in the registry `[1, 2, 3, 2]`. -/
theorem cancel_removes_first_only_witness :
    (cancelCallbackTask 2 { cold with doInit := false, updateList := [1, 2, 3, 2] }).updateList
      = [1] ++ [3, 2] :=
  (cancel_removes_first_only 2 { cold with doInit := false, updateList := [1, 2, 3, 2] }).1
    [1] [3, 2] rfl (by decide)

/-- C2 (amended): in every state reached from the cold state, `getPerMille`
and `getMilliVolt` return `-1` while no completion of the matching kind has
run, and afterwards the value carried by the latest completion of that kind
converted to `int16_t`, which is the value itself when it is below 32768. -/
theorem getters_show_latest_completion (cfg : Config) (B : Bodies) (fuel : Nat)
    (evs : List Event) (sys : Sys) (h : exec cfg B fuel evs Sys.cold = .ok sys) :
    ((∀ e ∈ sys.completions, e.1 ≠ .BatteryCapacity) → (getPerMille sys.st).1 = -1) ∧
    ((∀ e ∈ sys.completions, e.1 ≠ .BatteryVoltage) → (getMilliVolt sys.st).1 = -1) ∧
    (∀ older v newer, sys.completions = older ++ (.BatteryCapacity, v) :: newer →
      (∀ e ∈ newer, e.1 ≠ .BatteryCapacity) →
      (getPerMille sys.st).1 = toInt16 v.val ∧
      (v.val < 32768 → (getPerMille sys.st).1 = ((v.val : Nat) : Int))) ∧
    (∀ older v newer, sys.completions = older ++ (.BatteryVoltage, v) :: newer →
      (∀ e ∈ newer, e.1 ≠ .BatteryVoltage) →
      (getMilliVolt sys.st).1 = toInt16 v.val ∧
      (v.val < 32768 → (getMilliVolt sys.st).1 = ((v.val : Nat) : Int))) := by
  obtain ⟨hv, hc⟩ := reachable_cache cfg B fuel evs sys h
  have hP : (getPerMille sys.st).1 = sys.st.capacity := by simp [getPerMille]
  have hM : (getMilliVolt sys.st).1 = sys.st.voltage := by simp [getMilliVolt]
  rw [hP, hM, hv, hc]
  refine ⟨lastValue_of_absent _ _, lastValue_of_absent _ _, ?_, ?_⟩
  · intro older v newer hr hn
    rw [hr, lastValue_of_latest _ _ _ _ hn]
    exact ⟨rfl, toInt16_of_lt _⟩
  · intro older v newer hr hn
    rw [hr, lastValue_of_latest _ _ _ _ hn]
    exact ⟨rfl, toInt16_of_lt _⟩

/-- Witness for C2: after the Voltage read has completed with 3700 and no
Capacity completion has run, `getPerMille` still returns `-1`. -/
theorem getters_show_latest_completion_witness :
    (getPerMille
      { doInit := false, voltage := 3700, capacity := -1,
        sendQueue := [{ type := .BatteryCapacity }], updateList := [],
        posted := [.processQueueTask], reads := [] }).1 = -1 :=
  (getters_show_latest_completion cfgPresent idle 0
    [.call .getMilliVolt, .schedule, .driverDone 3700]
    { st := { doInit := false, voltage := 3700, capacity := -1,
              sendQueue := [{ type := .BatteryCapacity }], updateList := [],
              posted := [.processQueueTask], reads := [] },
      invoked := [], completions := [(.BatteryVoltage, 3700)] }
    rfl).1 (by decide)

/-- Counterexample to C2 as stated: the Voltage read completes with 40000 and
`getMilliVolt` then returns -25536, not the value carried. -/
theorem getters_show_latest_completion_counterexample :
    ∃ sys, exec cfgPresent idle 0 [.call .getMilliVolt, .schedule, .driverDone 40000] Sys.cold
        = .ok sys ∧
      sys.completions = [(.BatteryVoltage, 40000)] ∧
      (getMilliVolt sys.st).1 = -25536 ∧
      (getMilliVolt sys.st).1 ≠ (((40000 : U16).val : Nat) : Int) :=
  ⟨{ st := { doInit := false, voltage := -25536, capacity := -1,
             sendQueue := [{ type := .BatteryCapacity }], updateList := [],
             posted := [.processQueueTask], reads := [] },
     invoked := [], completions := [(.BatteryVoltage, 40000)] },
    rfl, rfl, rfl, by decide⟩

/-- C4: Present backend, cold start, one public call, then scheduler run,
completion with `v`, scheduler run, completion with `c` (both below 32768, and
the subscriber, if the call registered one, only reads). The first completion
is the Voltage one and writes the voltage cache only; the second is the
Capacity one; afterwards `getMilliVolt` returns `v` and `getPerMille` returns `c`. -/
theorem fifo_voltage_then_capacity (cfg : Config) (B : Bodies) (fuel : Nat) (p : Call)
    (v c : U16) (hp : cfg.batteryPresent = true) (hf : 0 < fuel)
    (hB : ∀ callback, p = .setPerMilleChangeCallbackTask callback →
      Quiet (B callback (toInt16 c.val)))
    (hv : v.val < 32768) (hc : c.val < 32768) :
    ∃ sys1 sys2,
      exec cfg B fuel [.call p, .schedule, .driverDone v] Sys.cold = .ok sys1 ∧
      sys1.completions = [(.BatteryVoltage, v)] ∧
      sys1.st.voltage = ((v.val : Nat) : Int) ∧ sys1.st.capacity = -1 ∧
      exec cfg B fuel [.call p, .schedule, .driverDone v, .schedule, .driverDone c] Sys.cold
        = .ok sys2 ∧
      sys2.completions = [(.BatteryVoltage, v), (.BatteryCapacity, c)] ∧
      (getMilliVolt sys2.st).1 = ((v.val : Nat) : Int) ∧
      (getPerMille sys2.st).1 = ((c.val : Nat) : Int) := by
  have h1 : exec cfg B fuel [.call p, .schedule, .driverDone v] Sys.cold
      = .ok { st := { doInit := false, voltage := toInt16 v.val, capacity := -1,
                      sendQueue := [{ type := .BatteryCapacity }],
                      updateList := firstRegistry p,
                      posted := [.processQueueTask], reads := [] },
              invoked := [], completions := [(.BatteryVoltage, v)] } := by
    simp [exec, step, Sys.cold, perform_cold, processQueueTask, gaugeGetMilliVolt, hp,
      BatteryGaugeImplementation.getMilliVolt, fire, sendDoneTask, postCallback]
  obtain ⟨s2, hs2, hvolt, hcap, _⟩ := sendDoneTask_changed_quiet cfg B fuel c
    { doInit := false, voltage := toInt16 v.val, capacity := -1,
      sendQueue := [{ type := .BatteryCapacity }],
      updateList := firstRegistry p,
      posted := [], reads := [] } [] rfl
    (by
      have : (0 : Int) ≤ ((c.val : Nat) : Int) := Int.ofNat_nonneg _
      simp only [ne_eq]
      omega)
    (by
      intro cb hcb
      cases p with
      | setPerMilleChangeCallbackTask callback =>
        simp only [firstRegistry, List.mem_singleton] at hcb
        subst hcb
        exact hB cb rfl
      | cancelCallbackTask callback => simp [firstRegistry] at hcb
      | getPerMille => simp [firstRegistry] at hcb
      | getMilliVolt => simp [firstRegistry] at hcb
      | getTotalCapacity => simp [firstRegistry] at hcb
      | getAverageCurrent => simp [firstRegistry] at hcb)
    (by cases p <;> simp [firstRegistry]; omega)
  refine ⟨_, { st := s2, invoked := (firstRegistry p).map (fun cb => (cb, toInt16 c.val)),
                completions := [(.BatteryVoltage, v), (.BatteryCapacity, c)] },
    h1, rfl, toInt16_of_lt _ hv, rfl, ?_, rfl, ?_, ?_⟩
  · rw [show [Event.call p, .schedule, .driverDone v, .schedule, .driverDone c]
        = [Event.call p, .schedule, .driverDone v] ++ [.schedule, .driverDone c] from rfl,
      exec_append cfg B fuel _ _ _ _ h1]
    simp [exec, step, processQueueTask, gaugeGetPerMille, hp,
      BatteryGaugeImplementation.getPerMille, fire, hs2]
  · simp [getMilliVolt, hvolt, toInt16_of_lt _ hv]
  · simp [getPerMille, hcap, toInt16_of_lt _ hc]

/-- Witness for C4: the scenario with `getMilliVolt`, 3700 and 812. -/
theorem fifo_voltage_then_capacity_witness :
    ∃ sys1 sys2,
      exec cfgPresent idle 1 [.call .getMilliVolt, .schedule, .driverDone 3700] Sys.cold
        = .ok sys1 ∧
      sys1.completions = [(.BatteryVoltage, 3700)] ∧
      sys1.st.voltage = (((3700 : U16).val : Nat) : Int) ∧ sys1.st.capacity = -1 ∧
      exec cfgPresent idle 1
        [.call .getMilliVolt, .schedule, .driverDone 3700, .schedule, .driverDone 812] Sys.cold
        = .ok sys2 ∧
      sys2.completions = [(.BatteryVoltage, 3700), (.BatteryCapacity, 812)] ∧
      (getMilliVolt sys2.st).1 = (((3700 : U16).val : Nat) : Int) ∧
      (getPerMille sys2.st).1 = (((812 : U16).val : Nat) : Int) :=
  fifo_voltage_then_capacity cfgPresent idle 1 .getMilliVolt 3700 812 rfl (by decide)
    (fun _ h => by cases h) (by decide) (by decide)

/-- C5: in every state reached from the cold state by public calls, scheduler
runs and completions (subscriber code included), no two registry entries are
equal; and any positive number of `setPerMilleChangeCallbackTask callback`
calls leaves exactly one entry equal to `callback`. -/
theorem registry_has_no_duplicates (cfg : Config) (B : Bodies) (fuel : Nat)
    (evs : List Event) (sys : Sys) (h : exec cfg B fuel evs Sys.cold = .ok sys) :
    sys.st.updateList.Nodup ∧
    ∀ (callback : Callback) (n : Nat),
      ((setPerMilleChangeCallbackTask callback)^[n + 1] sys.st).updateList.count callback = 1 := by
  have hn := reachable_nodup cfg B fuel evs sys h
  refine ⟨hn, ?_⟩
  intro callback n
  have hmem : callback ∈ (setPerMilleChangeCallbackTask callback sys.st).updateList := by
    rw [setPerMilleChangeCallbackTask_updateList]
    split
    · assumption
    · simp
  have hd : (setPerMilleChangeCallbackTask callback sys.st).doInit = false := by
    unfold setPerMilleChangeCallbackTask
    simp only
    split <;> simp
  have hfix := setPerMilleChangeCallbackTask_of_mem callback _ hd hmem
  rw [Function.iterate_succ_apply, Function.iterate_fixed hfix]
  exact List.count_eq_one_of_mem
    (perform_nodup cfg (.setPerMilleChangeCallbackTask callback) sys.st hn) hmem

/-- Witness for C5: two subscribers, one of them subscribed twice. -/
theorem registry_has_no_duplicates_witness :
    ([3, 4] : List Callback).Nodup ∧
    ∀ (callback : Callback) (n : Nat),
      ((setPerMilleChangeCallbackTask callback)^[n + 1]
        { doInit := false, voltage := -1, capacity := -1,
          sendQueue := [{ type := .BatteryVoltage }, { type := .BatteryCapacity }],
          updateList := [3, 4], posted := [.processQueueTask],
          reads := [] }).updateList.count callback = 1 :=
  registry_has_no_duplicates cfgPresent idle 0
    [.call (.setPerMilleChangeCallbackTask 3), .call (.setPerMilleChangeCallbackTask 4),
      .call (.setPerMilleChangeCallbackTask 3)]
    { st := { doInit := false, voltage := -1, capacity := -1,
              sendQueue := [{ type := .BatteryVoltage }, { type := .BatteryCapacity }],
              updateList := [3, 4], posted := [.processQueueTask], reads := [] },
      invoked := [], completions := [] }
    rfl

/-- C7: in every state reached from the cold state, subscribing `callback`
twice and cancelling it once leaves a registry without `callback`. -/
theorem subscribe_twice_cancel_once (cfg : Config) (B : Bodies) (fuel : Nat)
    (evs : List Event) (sys : Sys) (h : exec cfg B fuel evs Sys.cold = .ok sys)
    (callback : Callback) :
    callback ∉ (cancelCallbackTask callback (setPerMilleChangeCallbackTask callback
      (setPerMilleChangeCallbackTask callback sys.st))).updateList := by
  have hn := reachable_nodup cfg B fuel evs sys h
  have h1 := perform_nodup cfg (.setPerMilleChangeCallbackTask callback) sys.st hn
  have h2 := perform_nodup cfg (.setPerMilleChangeCallbackTask callback) _ h1
  rw [cancelCallbackTask_updateList]
  exact List.Nodup.not_mem_erase h2

/-- Witness for C7: callback 3 on a registry that already holds 3 and 4. -/
theorem subscribe_twice_cancel_once_witness :
    3 ∉ (cancelCallbackTask 3 (setPerMilleChangeCallbackTask 3
      (setPerMilleChangeCallbackTask 3
        { doInit := false, voltage := -1, capacity := -1,
          sendQueue := [{ type := .BatteryVoltage }, { type := .BatteryCapacity }],
          updateList := [3, 4], posted := [.processQueueTask], reads := [] }))).updateList :=
  subscribe_twice_cancel_once cfgPresent idle 0
    [.call (.setPerMilleChangeCallbackTask 3), .call (.setPerMilleChangeCallbackTask 4)]
    { st := { doInit := false, voltage := -1, capacity := -1,
              sendQueue := [{ type := .BatteryVoltage }, { type := .BatteryCapacity }],
              updateList := [3, 4], posted := [.processQueueTask], reads := [] },
      invoked := [], completions := [] }
    rfl 3

/-- C10 at a failing input: NotPresent backend, cold start, one subscriber, the
scheduler drained. The Capacity completion carries 0xFFFF, which differs from
the cached `-1` in the comparison, and the subscriber is invoked with `-1`. -/
theorem absent_backend_notifies :
    ∃ sys, exec cfgAbsent idle 1
        [.call (.setPerMilleChangeCallbackTask 1), .schedule, .schedule, .schedule, .schedule,
          .schedule] Sys.cold = .ok sys ∧
      sys.completions = [(.BatteryVoltage, 65535), (.BatteryCapacity, 65535)] ∧
      sys.invoked = [(1, -1)] ∧ sys.st.posted = [] :=
  ⟨{ st := { doInit := false, voltage := -1, capacity := -1, sendQueue := [],
             updateList := [1], posted := [], reads := [] },
     invoked := [(1, -1)],
     completions := [(.BatteryVoltage, 65535), (.BatteryCapacity, 65535)] },
    rfl, rfl, rfl, rfl⟩

/-- C11: the NotPresent backend binds `-1` converted to `uint16_t`, that is
0xFFFF, for both reads, and 0xFFFF converted to `int16_t` is `-1`. From the cold
state, after one public call and the four scheduler runs that dispatch and
complete both initial reads (the subscriber, if the call registered one, only
reads), both completions carried 0xFFFF, both cache slots hold `-1`, and
`getPerMille` and `getMilliVolt` return `-1`. -/
theorem absent_backend_keeps_sentinel (cfg : Config) (B : Bodies) (fuel : Nat) (p : Call)
    (hp : cfg.batteryPresent = false) (hf : 0 < fuel)
    (hB : ∀ callback, p = .setPerMilleChangeCallbackTask callback → Quiet (B callback (-1))) :
    toUInt16 (-1) = 65535 ∧ toInt16 65535 = -1 ∧
    (∀ s, BatteryGaugeNotPresent.getPerMille s
        = { s with posted := s.posted ++ [.sendDoneTask 65535 .BatteryCapacity] }) ∧
    (∀ s, BatteryGaugeNotPresent.getMilliVolt s
        = { s with posted := s.posted ++ [.sendDoneTask 65535 .BatteryVoltage] }) ∧
    ∃ sys, exec cfg B fuel [.call p, .schedule, .schedule, .schedule, .schedule] Sys.cold
        = .ok sys ∧
      sys.completions = [(.BatteryVoltage, 65535), (.BatteryCapacity, 65535)] ∧
      sys.st.voltage = -1 ∧ sys.st.capacity = -1 ∧
      (getPerMille sys.st).1 = -1 ∧ (getMilliVolt sys.st).1 = -1 := by
  have hu : toUInt16 (-1) = 65535 := by decide
  have hi : toInt16 65535 = -1 := by decide
  have hi2 : toInt16 (65535 : U16).val = -1 := by decide
  refine ⟨hu, hi, fun s => rfl, fun s => rfl, ?_⟩
  have h1 : exec cfg B fuel [.call p, .schedule, .schedule, .schedule] Sys.cold
      = .ok { st := { doInit := false, voltage := -1, capacity := -1,
                      sendQueue := [{ type := .BatteryCapacity }],
                      updateList := firstRegistry p,
                      posted := [.sendDoneTask 65535 .BatteryCapacity], reads := [] },
              invoked := [], completions := [(.BatteryVoltage, 65535)] } := by
    simp [exec, step, Sys.cold, perform_cold, processQueueTask, gaugeGetMilliVolt,
      gaugeGetPerMille, hp, BatteryGaugeNotPresent.getMilliVolt,
      BatteryGaugeNotPresent.getPerMille, fire, sendDoneTask, postCallback, hu, hi2]
  obtain ⟨s2, hs2, hvolt, hcap, _⟩ := sendDoneTask_changed_quiet cfg B fuel 65535
    { doInit := false, voltage := -1, capacity := -1,
      sendQueue := [{ type := .BatteryCapacity }],
      updateList := firstRegistry p,
      posted := [], reads := [] } [] rfl
    (by show (-1 : Int) ≠ (((65535 : U16).val : Nat) : Int); decide)
    (by
      intro cb hcb
      rw [hi2]
      cases p with
      | setPerMilleChangeCallbackTask callback =>
        simp only [firstRegistry, List.mem_singleton] at hcb
        subst hcb
        exact hB cb rfl
      | cancelCallbackTask callback => simp [firstRegistry] at hcb
      | getPerMille => simp [firstRegistry] at hcb
      | getMilliVolt => simp [firstRegistry] at hcb
      | getTotalCapacity => simp [firstRegistry] at hcb
      | getAverageCurrent => simp [firstRegistry] at hcb)
    (by cases p <;> simp [firstRegistry]; omega)
  have hcap2 : s2.capacity = -1 := by rw [hcap]; exact hi2
  have hvolt2 : s2.voltage = -1 := hvolt
  refine ⟨{ st := s2, invoked := (firstRegistry p).map (fun cb => (cb, toInt16 (65535 : U16).val)),
            completions := [(.BatteryVoltage, 65535), (.BatteryCapacity, 65535)] },
    ?_, rfl, hvolt2, hcap2, ?_, ?_⟩
  · rw [show [Event.call p, .schedule, .schedule, .schedule, .schedule]
        = [Event.call p, .schedule, .schedule, .schedule] ++ [.schedule] from rfl,
      exec_append cfg B fuel _ _ _ _ h1]
    simp [exec, step, fire, hs2]
  · simp [getPerMille, hcap2]
  · simp [getMilliVolt, hvolt2]

/-- Witness for C11: the absent build with `getPerMille` as the first call. -/
theorem absent_backend_keeps_sentinel_witness :
    toUInt16 (-1) = 65535 ∧ toInt16 65535 = -1 ∧
    (∀ s, BatteryGaugeNotPresent.getPerMille s
        = { s with posted := s.posted ++ [.sendDoneTask 65535 .BatteryCapacity] }) ∧
    (∀ s, BatteryGaugeNotPresent.getMilliVolt s
        = { s with posted := s.posted ++ [.sendDoneTask 65535 .BatteryVoltage] }) ∧
    ∃ sys, exec cfgAbsent idle 1 [.call .getPerMille, .schedule, .schedule, .schedule,
        .schedule] Sys.cold = .ok sys ∧
      sys.completions = [(.BatteryVoltage, 65535), (.BatteryCapacity, 65535)] ∧
      sys.st.voltage = -1 ∧ sys.st.capacity = -1 ∧
      (getPerMille sys.st).1 = -1 ∧ (getMilliVolt sys.st).1 = -1 :=
  absent_backend_keeps_sentinel cfgAbsent idle 1 .getPerMille rfl (by decide)
    (fun _ h => by cases h)

/-- C12: `getTotalCapacity` and `getAverageCurrent` return the build-time
constants as they are (the constants being `uint32_t` values) when the battery
is present, and 4294967295 when it is not; the value returned is the same in
every state. -/
theorem static_parameters (cfg : Config) (s s2 : State) :
    (cfg.batteryPresent = true → 0 ≤ cfg.batteryCapacity → cfg.batteryCapacity < 4294967296 →
      (((getTotalCapacity cfg s).1 : Nat) : Int) = cfg.batteryCapacity) ∧
    (cfg.batteryPresent = true → 0 ≤ cfg.estimatedCurrent → cfg.estimatedCurrent < 4294967296 →
      (((getAverageCurrent cfg s).1 : Nat) : Int) = cfg.estimatedCurrent) ∧
    (cfg.batteryPresent = false →
      (getTotalCapacity cfg s).1 = 4294967295 ∧ (getAverageCurrent cfg s).1 = 4294967295) ∧
    (getTotalCapacity cfg s).1 = (getTotalCapacity cfg s2).1 ∧
    (getAverageCurrent cfg s).1 = (getAverageCurrent cfg s2).1 := by
  have hconv : ∀ c : Int, 0 ≤ c → c < 4294967296 → ((toUInt32 c : Nat) : Int) = c := by
    intro c h0 h1
    unfold toUInt32
    rw [Int.emod_eq_of_lt h0 h1]
    exact Int.toNat_of_nonneg h0
  refine ⟨?_, ?_, ?_, rfl, rfl⟩
  · intro hp h0 h1
    simp only [getTotalCapacity, hp, if_true]
    exact hconv _ h0 h1
  · intro hp h0 h1
    simp only [getAverageCurrent, hp, if_true]
    exact hconv _ h0 h1
  · intro hp
    have : toUInt32 (-1) = 4294967295 := by decide
    simp [getTotalCapacity, getAverageCurrent, hp, this]

/-- Witness for C12: the present build with capacity 200, in the cold state. -/
theorem static_parameters_witness :
    (((getTotalCapacity cfgPresent cold).1 : Nat) : Int) = cfgPresent.batteryCapacity :=
  (static_parameters cfgPresent cold cold).1 rfl (by decide) (by decide)

/-- C18: `processQueueTask` on an empty queue changes nothing. On a queue whose
head is a Capacity transaction it makes the one call `gauge.getPerMille`, on a
Voltage head the one call `gauge.getMilliVolt`: one more read is in flight,
recorded with that kind, and the queue (head included), the cache, the
registry and the init flag are as before. -/
theorem processQueueTask_dispatches (cfg : Config) (s : State) :
    (s.sendQueue = [] → processQueueTask cfg s = s) ∧
    (∀ rest, s.sendQueue = { type := .BatteryCapacity } :: rest →
      processQueueTask cfg s = gaugeGetPerMille cfg s ∧
      processQueueTask cfg s
        = (if cfg.batteryPresent then { s with reads := s.reads ++ [.BatteryCapacity] }
           else { s with posted := s.posted ++ [.sendDoneTask 65535 .BatteryCapacity] }) ∧
      inFlightReads (processQueueTask cfg s) = inFlightReads s + 1 ∧
      pendingProcessQueue (processQueueTask cfg s) = pendingProcessQueue s) ∧
    (∀ rest, s.sendQueue = { type := .BatteryVoltage } :: rest →
      processQueueTask cfg s = gaugeGetMilliVolt cfg s ∧
      processQueueTask cfg s
        = (if cfg.batteryPresent then { s with reads := s.reads ++ [.BatteryVoltage] }
           else { s with posted := s.posted ++ [.sendDoneTask 65535 .BatteryVoltage] }) ∧
      inFlightReads (processQueueTask cfg s) = inFlightReads s + 1 ∧
      pendingProcessQueue (processQueueTask cfg s) = pendingProcessQueue s) := by
  have hu : toUInt16 (-1) = 65535 := by decide
  refine ⟨?_, ?_, ?_⟩
  · intro h
    simp [processQueueTask, h]
  · intro rest h
    have h1 : processQueueTask cfg s = gaugeGetPerMille cfg s := by
      simp [processQueueTask, h]
    rw [h1]
    cases hp : cfg.batteryPresent <;>
      simp [gaugeGetPerMille, hp, BatteryGaugeNotPresent.getPerMille,
        BatteryGaugeImplementation.getPerMille, postCallback, hu, inFlightReads,
        pendingProcessQueue, List.filter_append]
    all_goals omega
  · intro rest h
    have h1 : processQueueTask cfg s = gaugeGetMilliVolt cfg s := by
      simp [processQueueTask, h]
    rw [h1]
    cases hp : cfg.batteryPresent <;>
      simp [gaugeGetMilliVolt, hp, BatteryGaugeNotPresent.getMilliVolt,
        BatteryGaugeImplementation.getMilliVolt, postCallback, hu, inFlightReads,
        pendingProcessQueue, List.filter_append]
    all_goals omega

/-- Witness for C18: the queue right after `init`, on the present build. -/
theorem processQueueTask_dispatches_witness :
    processQueueTask cfgPresent (init cold) = gaugeGetMilliVolt cfgPresent (init cold) ∧
    processQueueTask cfgPresent (init cold)
      = (if cfgPresent.batteryPresent then
          { init cold with reads := (init cold).reads ++ [.BatteryVoltage] }
         else { init cold with
                  posted := (init cold).posted ++ [.sendDoneTask 65535 .BatteryVoltage] }) ∧
    inFlightReads (processQueueTask cfgPresent (init cold)) = inFlightReads (init cold) + 1 ∧
    pendingProcessQueue (processQueueTask cfgPresent (init cold))
      = pendingProcessQueue (init cold) :=
  (processQueueTask_dispatches cfgPresent (init cold)).2.2 [{ type := .BatteryCapacity }] rfl

/-- C13: in every state reached from the cold state at most one backend read
is in flight, and reads in flight plus pending posts of `processQueueTask`
never exceed one. -/
theorem one_read_in_flight (cfg : Config) (B : Bodies) (fuel : Nat) (evs : List Event)
    (sys : Sys) (h : exec cfg B fuel evs Sys.cold = .ok sys) :
    inFlightReads sys.st ≤ 1 ∧ inFlightReads sys.st + pendingProcessQueue sys.st ≤ 1 := by
  obtain ⟨n, hn⟩ := reachable_stage cfg B fuel evs sys h
  have := (stage_outstanding cfg n sys hn).1
  exact ⟨by omega, this⟩

/-- Witness for C13: the Voltage read is in the driver. -/
theorem one_read_in_flight_witness :
    inFlightReads
        { doInit := false, voltage := -1, capacity := -1,
          sendQueue := [{ type := .BatteryVoltage }, { type := .BatteryCapacity }],
          updateList := [], posted := [], reads := [.BatteryVoltage] } ≤ 1 ∧
    inFlightReads
        { doInit := false, voltage := -1, capacity := -1,
          sendQueue := [{ type := .BatteryVoltage }, { type := .BatteryCapacity }],
          updateList := [], posted := [], reads := [.BatteryVoltage] } +
      pendingProcessQueue
        { doInit := false, voltage := -1, capacity := -1,
          sendQueue := [{ type := .BatteryVoltage }, { type := .BatteryCapacity }],
          updateList := [], posted := [], reads := [.BatteryVoltage] } ≤ 1 :=
  one_read_in_flight cfgPresent idle 0 [.call .getMilliVolt, .schedule]
    { st := { doInit := false, voltage := -1, capacity := -1,
              sendQueue := [{ type := .BatteryVoltage }, { type := .BatteryCapacity }],
              updateList := [], posted := [], reads := [.BatteryVoltage] },
      invoked := [], completions := [] }
    rfl

/-- C14: in every state reached from the cold state, when an event runs the
completion of a read dispatched with kind `kind`, the transaction at the head
of the queue has that kind, and the completion, when it finishes, is recorded
as having popped a transaction of that kind. -/
theorem completion_pops_dispatched_kind (cfg : Config) (B : Bodies) (fuel : Nat)
    (evs : List Event) (sys : Sys) (h : exec cfg B fuel evs Sys.cold = .ok sys)
    (e : Event) (kind : type_t) (hk : dispatchedKind sys e = some kind) :
    poppedKind sys = some kind ∧
    ∀ sys2, step cfg B fuel e sys = .ok sys2 →
      ∃ value, sys2.completions = sys.completions ++ [(kind, value)] := by
  obtain ⟨n, hn⟩ := reachable_stage cfg B fuel evs sys h
  obtain ⟨tl, htl⟩ := stage_completion cfg n sys e kind hn hk
  refine ⟨by simp [poppedKind, htl], ?_⟩
  intro sys2 hs
  have hfire : ∀ (value : U16) (sys1 : Sys), fire cfg B fuel value sys1 = .ok sys2 →
      sys1.st.sendQueue = sys.st.sendQueue → sys1.completions = sys.completions →
      ∃ value, sys2.completions = sys.completions ++ [(kind, value)] := by
    intro value sys1 hf hq hc
    obtain ⟨action, rest, hq2, _, _, hcomp⟩ := fire_ok cfg B fuel value sys1 sys2 hf
    rw [hq, htl] at hq2
    simp only [List.cons.injEq] at hq2
    obtain ⟨rfl, _⟩ := hq2
    exact ⟨value, by rw [hcomp, hc]⟩
  cases e with
  | call c => simp [dispatchedKind] at hk
  | schedule =>
    cases hpo : sys.st.posted with
    | nil => simp [dispatchedKind, hpo] at hk
    | cons t rest =>
      cases t with
      | processQueueTask => simp [dispatchedKind, hpo] at hk
      | sendDoneTask value origin =>
        simp only [step, hpo] at hs
        exact hfire value _ hs rfl rfl
  | driverDone value =>
    cases hr : sys.st.reads with
    | nil => simp [dispatchedKind, hr] at hk
    | cons k rest =>
      simp only [step, hr] at hs
      exact hfire value _ hs rfl rfl

/-- Witness for C14: the driver completes the Voltage read while the queue is
`[Voltage, Capacity]`. -/
theorem completion_pops_dispatched_kind_witness :
    poppedKind
        { st := { doInit := false, voltage := -1, capacity := -1,
                  sendQueue := [{ type := .BatteryVoltage }, { type := .BatteryCapacity }],
                  updateList := [], posted := [], reads := [.BatteryVoltage] },
          invoked := [], completions := [] } = some .BatteryVoltage :=
  (completion_pops_dispatched_kind cfgPresent idle 0 [.call .getMilliVolt, .schedule]
    { st := { doInit := false, voltage := -1, capacity := -1,
              sendQueue := [{ type := .BatteryVoltage }, { type := .BatteryCapacity }],
              updateList := [], posted := [], reads := [.BatteryVoltage] },
      invoked := [], completions := [] }
    rfl (.driverDone 3700) .BatteryVoltage rfl).1

/-- C19: no run from the cold state ever reports `front()` on an empty queue,
and in every state reached from the cold state an event that runs a completion
finds the queue not empty. -/
theorem completion_finds_queue_nonempty (cfg : Config) (B : Bodies) (fuel : Nat)
    (evs : List Event) :
    exec cfg B fuel evs Sys.cold ≠ .error .emptyQueue ∧
    ∀ sys, exec cfg B fuel evs Sys.cold = .ok sys →
      ∀ e, dispatchedKind sys e ≠ none →
        sys.st.sendQueue ≠ [] ∧ step cfg B fuel e sys ≠ .error .emptyQueue := by
  refine ⟨exec_not_emptyQueue cfg B fuel evs 0 Sys.cold (atStage_cold cfg), ?_⟩
  intro sys h e hk
  obtain ⟨n, hn⟩ := reachable_stage cfg B fuel evs sys h
  refine ⟨?_, step_not_emptyQueue cfg B fuel e n sys hn⟩
  cases hd : dispatchedKind sys e with
  | none => exact absurd hd hk
  | some kind =>
    obtain ⟨tl, htl⟩ := stage_completion cfg n sys e kind hn hd
    rw [htl]
    simp

/-- Witness for C19: the driver completes the Voltage read while the queue is
`[Voltage, Capacity]`. -/
theorem completion_finds_queue_nonempty_witness :
    ([{ type := .BatteryVoltage }, { type := .BatteryCapacity }] : List transaction_t) ≠ [] :=
  ((completion_finds_queue_nonempty cfgPresent idle 0 [.call .getMilliVolt, .schedule]).2
    { st := { doInit := false, voltage := -1, capacity := -1,
              sendQueue := [{ type := .BatteryVoltage }, { type := .BatteryCapacity }],
              updateList := [], posted := [], reads := [.BatteryVoltage] },
      invoked := [], completions := [] }
    rfl (.driverDone 3700) (by decide)).1

/-- C20: in every run from the cold state `init` runs at most once and at most
two reads are handed to the backend; in every state reached the queue holds at
most two transactions; once the init flag is cleared no run sets it again, no
public call changes the queue and the four getters change nothing at all; and
once both initial completions have run, no run changes the cached voltage or
capacity or runs another completion. -/
theorem init_runs_once (cfg : Config) (B : Bodies) (fuel : Nat) (evs : List Event) (sys : Sys)
    (h : exec cfg B fuel evs Sys.cold = .ok sys) :
    initRuns cfg B fuel evs Sys.cold ≤ 1 ∧
    readsIssued cfg B fuel evs Sys.cold ≤ 2 ∧
    sys.st.sendQueue.length ≤ 2 ∧
    (sys.st.doInit = false → ∀ evs2 sys2, exec cfg B fuel evs2 sys = .ok sys2 →
      sys2.st.doInit = false) ∧
    (sys.st.doInit = false → ∀ c, (perform cfg c sys.st).2.sendQueue = sys.st.sendQueue) ∧
    (sys.st.doInit = false →
      (getPerMille sys.st).2 = sys.st ∧ (getMilliVolt sys.st).2 = sys.st ∧
      (getTotalCapacity cfg sys.st).2 = sys.st ∧ (getAverageCurrent cfg sys.st).2 = sys.st) ∧
    (sys.completions.length = 2 → ∀ evs2 sys2, exec cfg B fuel evs2 sys = .ok sys2 →
      sys2.st.voltage = sys.st.voltage ∧ sys2.st.capacity = sys.st.capacity ∧
      sys2.completions = sys.completions) := by
  obtain ⟨n, hn⟩ := reachable_stage cfg B fuel evs sys h
  refine ⟨?_, ?_, (stage_outstanding cfg n sys hn).2, ?_, ?_, ?_, ?_⟩
  · simpa using initRuns_le cfg B fuel evs 0 Sys.cold (atStage_cold cfg)
  · simpa [stageReadsLeft] using readsIssued_le cfg B fuel evs 0 Sys.cold (atStage_cold cfg)
  · intro hd evs2 sys2 h2
    obtain ⟨m, hm, hle⟩ := exec_stage cfg B fuel evs2 n sys sys2 hn h2
    have hn0 : n ≠ 0 := by
      intro h0
      have := (stage_doInit cfg n sys hn).mpr h0
      rw [hd] at this
      exact Bool.noConfusion this
    cases hdi : sys2.st.doInit with
    | false => rfl
    | true =>
      have := (stage_doInit cfg m sys2 hm).mp hdi
      omega
  · intro hd c
    have := perform_core_of_false cfg c sys.st hd
    simp only [core, Prod.mk.injEq] at this
    exact this.2.1
  · intro hd
    exact perform_getter_of_false cfg sys.st hd
  · intro hl evs2 sys2 h2
    have hn5 : 5 ≤ n := by
      by_contra hlt
      have hk := congrArg List.length hn.2.2
      rw [List.length_map, hl] at hk
      unfold stageKinds at hk
      by_cases h2' : n ≤ 2
      · rw [if_pos h2'] at hk; simp at hk
      · rw [if_neg h2', if_pos (by omega)] at hk; simp at hk
    exact settled_forever cfg B fuel evs2 n sys sys2 hn hn5 h2

/-- Witness for C20: after both completions of the scenario with 3700 and 812. -/
theorem init_runs_once_witness :
    initRuns cfgPresent idle 1
      [.call .getMilliVolt, .schedule, .driverDone 3700, .schedule, .driverDone 812]
      Sys.cold ≤ 1 ∧
    readsIssued cfgPresent idle 1
      [.call .getMilliVolt, .schedule, .driverDone 3700, .schedule, .driverDone 812]
      Sys.cold ≤ 2 :=
  ⟨(init_runs_once cfgPresent idle 1
      [.call .getMilliVolt, .schedule, .driverDone 3700, .schedule, .driverDone 812]
      { st := { doInit := false, voltage := 3700, capacity := 812, sendQueue := [],
                updateList := [], posted := [.processQueueTask], reads := [] },
        invoked := [], completions := [(.BatteryVoltage, 3700), (.BatteryCapacity, 812)] }
      rfl).1,
   (init_runs_once cfgPresent idle 1
      [.call .getMilliVolt, .schedule, .driverDone 3700, .schedule, .driverDone 812]
      { st := { doInit := false, voltage := 3700, capacity := 812, sendQueue := [],
                updateList := [], posted := [.processQueueTask], reads := [] },
        invoked := [], completions := [(.BatteryVoltage, 3700), (.BatteryCapacity, 812)] }
      rfl).2.1⟩

/-- C16 (amended): in a Capacity completion whose value differs from the cached
capacity, subscribers that do not mutate the registry are, with enough fuel,
invoked once each in insertion order with the value converted to `int16_t`
(the value itself when it is below 32768). The capacity is written after the
loop: the completion is the same, invocations and state, when every
`getPerMille` made by subscriber code is answered with the capacity cached
before the completion, whatever the subscribers do with the answer; and after
a completion that finished `getPerMille` returns the converted value. -/
theorem notification_order_and_late_write (cfg : Config) (fuel : Nat)
    (value : U16) (s : State) (rest : List transaction_t)
    (hq : s.sendQueue = { type := .BatteryCapacity } :: rest)
    (hc : s.capacity ≠ ((value.val : Nat) : Int)) :
    (∀ (B : Bodies), (∀ c ∈ s.updateList, Quiet (B c (toInt16 value.val))) →
      s.updateList.length ≤ fuel →
      ∃ s2, sendDoneTask cfg B fuel value s
          = (s.updateList.map (fun c => (c, toInt16 value.val)), .ok s2) ∧
        (getPerMille s2).1 = toInt16 value.val ∧ s2.updateList = s.updateList) ∧
    (value.val < 32768 → toInt16 value.val = ((value.val : Nat) : Int)) ∧
    (∀ (B : Bodies),
      sendDoneTask cfg B fuel value s
        = sendDoneTask cfg (fun c a => answerOld s.capacity (B c a)) fuel value s) ∧
    (∀ (B : Bodies) (s2 : State), (sendDoneTask cfg B fuel value s).2 = .ok s2 →
      (getPerMille s2).1 = toInt16 value.val) := by
  refine ⟨?_, toInt16_of_lt _, fun B => (sendDoneTask_answerOld cfg B fuel value s).symm, ?_⟩
  · intro B hB hlen
    obtain ⟨s2, h1, _, hcap, hu⟩ :=
      sendDoneTask_changed_quiet cfg B fuel value s rest hq hc hB hlen
    exact ⟨s2, h1, by simp [getPerMille, hcap], hu⟩
  · intro B s2 h
    obtain ⟨action, rest2, hq2, _, _, hcap⟩ := sendDoneTask_ok cfg B fuel value s s2 h
    rw [hq] at hq2
    simp only [List.cons.injEq] at hq2
    obtain ⟨rfl, _⟩ := hq2
    simp [getPerMille, hcap, hc]

/-- Witness for C16: subscriber 7 probes `getPerMille` during a first reading of
812 and would subscribe callback 100 on reading 812. It reads the old `-1`:
it alone is invoked and callback 100 is not in the registry afterwards. -/
theorem notification_order_and_late_write_witness :
    sendDoneTask cfgPresent probe 2 812
        { doInit := false, voltage := 3700, capacity := -1,
          sendQueue := [{ type := .BatteryCapacity }],
          updateList := [7], posted := [], reads := [] }
      = sendDoneTask cfgPresent (fun c a => answerOld (-1) (probe c a)) 2 812
        { doInit := false, voltage := 3700, capacity := -1,
          sendQueue := [{ type := .BatteryCapacity }],
          updateList := [7], posted := [], reads := [] } ∧
    sendDoneTask cfgPresent probe 2 812
        { doInit := false, voltage := 3700, capacity := -1,
          sendQueue := [{ type := .BatteryCapacity }],
          updateList := [7], posted := [], reads := [] }
      = ([(7, 812)],
          .ok { doInit := false, voltage := 3700, capacity := 812, sendQueue := [],
                updateList := [7], posted := [.processQueueTask], reads := [] }) :=
  ⟨(notification_order_and_late_write cfgPresent 2 812
      { doInit := false, voltage := 3700, capacity := -1,
        sendQueue := [{ type := .BatteryCapacity }],
        updateList := [7], posted := [], reads := [] }
      [] rfl (by decide)).2.2.1 probe,
    rfl⟩

/-- Counterexample to C16 as stated: a Capacity completion carrying 40000
invokes the subscriber with -25536, and `getPerMille` then returns -25536. -/
theorem notification_order_and_late_write_counterexample :
    ∃ s2, sendDoneTask cfgPresent idle 1 40000
        { doInit := false, voltage := 3700, capacity := -1,
          sendQueue := [{ type := .BatteryCapacity }],
          updateList := [7], posted := [], reads := [] }
        = ([(7, -25536)], .ok s2) ∧
      (getPerMille s2).1 = -25536 ∧
      (-25536 : Int) ≠ (((40000 : U16).val : Nat) : Int) :=
  ⟨{ doInit := false, voltage := 3700, capacity := -25536, sendQueue := [],
     updateList := [7], posted := [.processQueueTask], reads := [] },
    rfl, rfl, by decide⟩

/-- C17 (amended): a completion that pops a Voltage transaction writes the
value converted to `int16_t` (the value itself when it is below 32768) to the
cached voltage, invokes no subscriber and leaves capacity, registry and init
flag alone. A completion that pops a Capacity transaction, the init flag being
cleared as in every state where a completion can run, leaves the cached voltage
and the init flag alone, and it finishes when the subscribers only read and the
fuel suffices. Either way the queue afterwards is the queue without its head
and `processQueueTask` is posted once. -/
theorem completion_frame (cfg : Config) (B : Bodies) (fuel : Nat) (value : U16) (s : State)
    (rest : List transaction_t) :
    (s.sendQueue = { type := .BatteryVoltage } :: rest →
      sendDoneTask cfg B fuel value s
        = ([], .ok { s with sendQueue := rest, voltage := toInt16 value.val,
                            posted := s.posted ++ [.processQueueTask] })) ∧
    (value.val < 32768 → toInt16 value.val = ((value.val : Nat) : Int)) ∧
    (s.sendQueue = { type := .BatteryCapacity } :: rest → s.doInit = false →
      (∀ s2, (sendDoneTask cfg B fuel value s).2 = .ok s2 →
        s2.voltage = s.voltage ∧ s2.doInit = false ∧ s2.sendQueue = rest ∧
        s2.posted = s.posted ++ [.processQueueTask] ∧ s2.reads = s.reads) ∧
      ((∀ c ∈ s.updateList, Quiet (B c (toInt16 value.val))) → s.updateList.length ≤ fuel →
        ∃ s2, (sendDoneTask cfg B fuel value s).2 = .ok s2)) := by
  refine ⟨?_, toInt16_of_lt _, ?_⟩
  · intro hq
    rw [sendDoneTask_voltage cfg B fuel value s rest hq]
    rfl
  · intro hq hd
    refine ⟨?_, ?_⟩
    · intro s2 h
      have hcore := sendDoneTask_core cfg B fuel value s s2 _ rest h hd hq
      obtain ⟨action, rest2, hq2, _, hv, _⟩ := sendDoneTask_ok cfg B fuel value s s2 h
      rw [hq] at hq2
      simp only [List.cons.injEq] at hq2
      obtain ⟨rfl, _⟩ := hq2
      simp only [reduceCtorEq, if_false] at hv
      simp only [core, Prod.mk.injEq] at hcore
      exact ⟨hv, hcore.1, hcore.2.1, hcore.2.2.1, hcore.2.2.2⟩
    · intro hB hlen
      by_cases hc : s.capacity = ((value.val : Nat) : Int)
      · exact ⟨_, by rw [sendDoneTask_same cfg B fuel value s rest hq hc]⟩
      · obtain ⟨s2, h1, _⟩ := sendDoneTask_changed_quiet cfg B fuel value s rest hq hc hB hlen
        exact ⟨s2, by rw [h1]⟩

/-- Witness for C17: the Voltage completion with 3700 of the first scenario. -/
theorem completion_frame_witness :
    sendDoneTask cfgPresent idle 0 3700
        { doInit := false, voltage := -1, capacity := -1,
          sendQueue := [{ type := .BatteryVoltage }, { type := .BatteryCapacity }],
          updateList := [], posted := [], reads := [] }
      = ([], .ok { doInit := false, voltage := toInt16 (3700 : U16).val, capacity := -1,
                   sendQueue := [{ type := .BatteryCapacity }],
                   updateList := [], posted := [] ++ [.processQueueTask], reads := [] }) :=
  (completion_frame cfgPresent idle 0 3700
    { doInit := false, voltage := -1, capacity := -1,
      sendQueue := [{ type := .BatteryVoltage }, { type := .BatteryCapacity }],
      updateList := [], posted := [], reads := [] }
    [{ type := .BatteryCapacity }]).1 rfl

/-- Counterexample to C17 as stated: a Voltage completion carrying 40000
leaves -25536 in the cached voltage. -/
theorem completion_frame_counterexample :
    ∃ s2, sendDoneTask cfgPresent idle 0 40000
        { doInit := false, voltage := -1, capacity := -1,
          sendQueue := [{ type := .BatteryVoltage }, { type := .BatteryCapacity }],
          updateList := [], posted := [], reads := [] }
        = ([], .ok s2) ∧
      s2.voltage = -25536 ∧ s2.voltage ≠ (((40000 : U16).val : Nat) : Int) :=
  ⟨{ doInit := false, voltage := -25536, capacity := -1,
     sendQueue := [{ type := .BatteryCapacity }],
     updateList := [], posted := [.processQueueTask], reads := [] },
    rfl, rfl, by decide⟩

end BatteryGauge
